import Mathlib

set_option maxRecDepth 100000
set_option maxHeartbeats 1000000

/-!
Verification development for the Gemini file-attachment subsystem of
CLIProxyAPI: a shallow embedding in Lean 4 of the local file store
(`internal/filestore/gemini_file_store.go`), the payload rewriter
(`sdk/api/handlers/gemini/gemini_local_file_rewrite.go`), the upstream
resumable-session proxy and the local resumable handlers, together with
theorems settling the frozen claims about them.

Machine integers (`int64`) are modelled as `Int`/`Nat` — sizes and byte
counts in the store fit comfortably below 2^63, and no claim exercises
overflow.  Byte strings are `List Nat` with every element `< 256`.
Wall-clock times (`time.Time`) are `Nat` ticks (nanoseconds); only order
and addition of durations matter.  File-system state is explicit: a store
state carries the association lists for the `files/` and `metadata/`
directories, and every operation that in Go touches the disk is a pure
function of that state.  I/O failures that the claims mention (the
metadata-write failure inside `SaveFile`) are injected through an explicit
boolean oracle.
-/

/-! ### Association lists standing for directories

`files/` and `metadata/` are directories keyed by file name.  A directory
holds at most one entry per name, which `fsInsert` (write/rename, which
overwrites) and `fsErase` (remove) maintain; `fsLookup` is an open/read. -/

def fsLookup {α : Type} (key : String) (dir : List (String × α)) : Option α :=
  (dir.find? (fun p => p.1 == key)).map (fun p => p.2)

def fsErase {α : Type} (key : String) (dir : List (String × α)) : List (String × α) :=
  dir.filter (fun p => p.1 != key)

def fsInsert {α : Type} (key : String) (v : α) (dir : List (String × α)) : List (String × α) :=
  (key, v) :: fsErase key dir

theorem fsLookup_cons {α : Type} (k : String) (p : String × α) (dir : List (String × α)) :
    fsLookup k (p :: dir) = if p.1 = k then some p.2 else fsLookup k dir := by
  by_cases h : p.1 = k
  · simp [fsLookup, List.find?, h]
  · have hb : (p.1 == k) = false := by simp [h]
    simp [fsLookup, List.find?, h, hb]

theorem fsErase_cons_self {α : Type} (k : String) (p : String × α) (dir : List (String × α))
    (h : p.1 = k) : fsErase k (p :: dir) = fsErase k dir := by
  simp [fsErase, h]

theorem fsErase_cons_ne {α : Type} (k : String) (p : String × α) (dir : List (String × α))
    (h : ¬ p.1 = k) : fsErase k (p :: dir) = p :: fsErase k dir := by
  simp [fsErase, h]

theorem fsLookup_erase_ne {α : Type} (k k' : String) (dir : List (String × α))
    (hne : k' ≠ k) : fsLookup k' (fsErase k dir) = fsLookup k' dir := by
  induction dir with
  | nil => rfl
  | cons p rest ih =>
    by_cases hp : p.1 = k
    · rw [fsErase_cons_self k p rest hp, ih, fsLookup_cons, if_neg]
      intro hh
      exact hne (by rw [← hh, hp])
    · rw [fsErase_cons_ne k p rest hp, fsLookup_cons, fsLookup_cons, ih]

theorem fsLookup_erase_self {α : Type} (key : String) (dir : List (String × α)) :
    fsLookup key (fsErase key dir) = none := by
  induction dir with
  | nil => rfl
  | cons p rest ih =>
    by_cases hp : p.1 = key
    · rw [fsErase_cons_self key p rest hp]; exact ih
    · rw [fsErase_cons_ne key p rest hp, fsLookup_cons, if_neg hp]; exact ih

theorem fsLookup_insert_self {α : Type} (key : String) (v : α) (dir : List (String × α)) :
    fsLookup key (fsInsert key v dir) = some v := by
  rw [fsInsert, fsLookup_cons]; simp

theorem fsLookup_insert_ne {α : Type} (k k' : String) (v : α) (dir : List (String × α))
    (hne : k' ≠ k) : fsLookup k' (fsInsert k v dir) = fsLookup k' dir := by
  rw [fsInsert, fsLookup_cons, if_neg (fun hh => hne hh.symm)]
  exact fsLookup_erase_ne k k' dir hne

theorem fsErase_of_lookup_none {α : Type} (key : String) (dir : List (String × α))
    (hnone : fsLookup key dir = none) : fsErase key dir = dir := by
  induction dir with
  | nil => rfl
  | cons p rest ih =>
    rw [fsLookup_cons] at hnone
    by_cases hp : p.1 = key
    · rw [if_pos hp] at hnone; exact absurd hnone (by simp)
    · rw [if_neg hp] at hnone
      rw [fsErase_cons_ne key p rest hp, ih hnone]

/-! ### Bytes, decimal strings, hex encoding

Go strings are byte strings; every string the store hashes or produces
(decimal timestamps, hex digests, API keys) is ASCII, where the byte view
and the character view coincide, so a string's bytes are its characters'
code points. -/

def strBytes (s : String) : List Nat := s.data.map Char.toNat

def hexDigitChars : List Char := "0123456789abcdef".data

def hexDigit (n : Nat) : Char := hexDigitChars.getD n '0'

/-- One byte as two lowercase hex characters, as `hex.EncodeToString` emits. -/
def hexBytePair (b : Nat) : List Char := [hexDigit (b / 16), hexDigit (b % 16)]

def hexEncode (bs : List Nat) : String := String.mk (bs.flatMap hexBytePair)

theorem length_hexEncode (bs : List Nat) : (hexEncode bs).length = 2 * bs.length := by
  simp only [hexEncode]
  show (bs.flatMap hexBytePair).length = 2 * bs.length
  induction bs with
  | nil => simp
  | cons b rest ih => simp [hexBytePair, ih]; omega

/-! ### SHA-256 (FIPS 180-4), on byte lists

The store uses SHA-256 three ways: the content digest recorded in the
metadata, the one-way API-key hash (truncated to 8 bytes), and the
timestamp-derived file id (truncated to 16 bytes). -/

def add32 (x y : Nat) : Nat := (x + y) % 4294967296

def rotr32 (x n : Nat) : Nat := ((x >>> n) ||| (x <<< (32 - n))) % 4294967296

def sha256K : List Nat :=
  [1116352408, 1899447441, 3049323471, 3921009573, 961987163, 1508970993,
   2453635748, 2870763221, 3624381080, 310598401, 607225278, 1426881987,
   1925078388, 2162078206, 2614888103, 3248222580, 3835390401, 4022224774,
   264347078, 604807628, 770255983, 1249150122, 1555081692, 1996064986,
   2554220882, 2821834349, 2952996808, 3210313671, 3336571891, 3584528711,
   113926993, 338241895, 666307205, 773529912, 1294757372, 1396182291,
   1695183700, 1986661051, 2177026350, 2456956037, 2730485921, 2820302411,
   3259730800, 3345764771, 3516065817, 3600352804, 4094571909, 275423344,
   430227734, 506948616, 659060556, 883997877, 958139571, 1322822218,
   1537002063, 1747873779, 1955562222, 2024104815, 2227730452, 2361852424,
   2428436474, 2756734187, 3204031479, 3329325298]

structure Sha256State where
  sa : Nat
  sb : Nat
  sc : Nat
  sd : Nat
  se : Nat
  sf : Nat
  sg : Nat
  sh : Nat

def sha256Init : Sha256State :=
  ⟨1779033703, 3144134277, 1013904242, 2773480762, 1359893119, 2600822924, 528734635, 1541459225⟩

/-- Big-endian 32-bit words from a 64-byte block. -/
def toWords32 : List Nat → List Nat
  | b0 :: b1 :: b2 :: b3 :: rest => (((b0 * 256 + b1) * 256 + b2) * 256 + b3) :: toWords32 rest
  | _ => []

/-- Extend the 16-word schedule by one word. -/
def schedStep (w : List Nat) : List Nat :=
  let n := w.length
  let w16 := w.getD (n - 16) 0
  let w15 := w.getD (n - 15) 0
  let w7 := w.getD (n - 7) 0
  let w2 := w.getD (n - 2) 0
  let s0 := rotr32 w15 7 ^^^ rotr32 w15 18 ^^^ (w15 >>> 3)
  let s1 := rotr32 w2 17 ^^^ rotr32 w2 19 ^^^ (w2 >>> 10)
  w ++ [add32 (add32 w16 s0) (add32 w7 s1)]

def msgSchedule (block : List Nat) : List Nat :=
  (List.range 48).foldl (fun w _ => schedStep w) (toWords32 block)

def sha256Round (st : Sha256State) (kw : Nat × Nat) : Sha256State :=
  let s1 := rotr32 st.se 6 ^^^ rotr32 st.se 11 ^^^ rotr32 st.se 25
  let ch := (st.se &&& st.sf) ^^^ ((st.se ^^^ 4294967295) &&& st.sg)
  let t1 := add32 (add32 (add32 st.sh s1) (add32 ch kw.1)) kw.2
  let s0 := rotr32 st.sa 2 ^^^ rotr32 st.sa 13 ^^^ rotr32 st.sa 22
  let mj := (st.sa &&& st.sb) ^^^ (st.sa &&& st.sc) ^^^ (st.sb &&& st.sc)
  let t2 := add32 s0 mj
  ⟨add32 t1 t2, st.sa, st.sb, st.sc, add32 st.sd t1, st.se, st.sf, st.sg⟩

def compressBlock (st : Sha256State) (block : List Nat) : Sha256State :=
  let fin := (sha256K.zip (msgSchedule block)).foldl sha256Round st
  ⟨add32 st.sa fin.sa, add32 st.sb fin.sb, add32 st.sc fin.sc, add32 st.sd fin.sd,
   add32 st.se fin.se, add32 st.sf fin.sf, add32 st.sg fin.sg, add32 st.sh fin.sh⟩

/-- A `Nat` as 8 big-endian bytes (the 64-bit message-length trailer). -/
def be64 (n : Nat) : List Nat :=
  [(n >>> 56) % 256, (n >>> 48) % 256, (n >>> 40) % 256, (n >>> 32) % 256,
   (n >>> 24) % 256, (n >>> 16) % 256, (n >>> 8) % 256, n % 256]

def sha256Pad (msg : List Nat) : List Nat :=
  let r := (msg.length + 9) % 64
  let zeros := if r = 0 then 0 else 64 - r
  msg ++ 128 :: (List.replicate zeros 0 ++ be64 (8 * msg.length))

/-- Split into consecutive 64-byte blocks.  The fuel argument (the list's
length suffices, since every step consumes at least one element) keeps the
recursion structural, so the definition reduces inside the kernel. -/
def chunk64Aux : Nat → List Nat → List (List Nat)
  | 0, _ => []
  | _ + 1, [] => []
  | fuel + 1, l => l.take 64 :: chunk64Aux fuel (l.drop 64)

def chunk64 (l : List Nat) : List (List Nat) := chunk64Aux l.length l

def wordBytes4 (w : Nat) : List Nat := [(w >>> 24) % 256, (w >>> 16) % 256, (w >>> 8) % 256, w % 256]

def digestBytes (st : Sha256State) : List Nat :=
  wordBytes4 st.sa ++ wordBytes4 st.sb ++ wordBytes4 st.sc ++ wordBytes4 st.sd ++
  wordBytes4 st.se ++ wordBytes4 st.sf ++ wordBytes4 st.sg ++ wordBytes4 st.sh

def sha256 (msg : List Nat) : List Nat :=
  digestBytes ((chunk64 (sha256Pad msg)).foldl compressBlock sha256Init)

theorem length_sha256 (msg : List Nat) : (sha256 msg).length = 32 := by
  simp [sha256, digestBytes, wordBytes4]

theorem wordBytes4_lt (w : Nat) : ∀ b ∈ wordBytes4 w, b < 256 := by
  intro b hb
  simp only [wordBytes4, List.mem_cons, List.not_mem_nil, or_false] at hb
  rcases hb with h | h | h | h <;> subst h <;> exact Nat.mod_lt _ (by norm_num)

theorem sha256_bytes_lt (msg : List Nat) : ∀ b ∈ sha256 msg, b < 256 := by
  intro b hb
  simp only [sha256, digestBytes, List.mem_append] at hb
  rcases hb with ((((((hb | hb) | hb) | hb) | hb) | hb) | hb) | hb <;>
    exact wordBytes4_lt _ b hb

/-! ### The store's derived identifiers (`gemini_file_store.go`) -/

/-- `hashAPIKey`: one-way hash of the caller's API key — empty for the empty
key, otherwise the first 8 bytes of the key's SHA-256, hex encoded. -/
def hashAPIKey (apiKey : String) : String :=
  if apiKey = "" then "" else hexEncode ((sha256 (strBytes apiKey)).take 8)

/-- `GenerateFileID`: hex encoding of the first 16 bytes of the SHA-256 of the
decimal nanosecond timestamp.  The timestamp is the only input. -/
def generateFileID (timestamp : Nat) : String :=
  hexEncode ((sha256 (strBytes (toString timestamp))).take 16)

/-! ### Store data model (`gemini_file_store.go`)

Errors: `fileNotFound` and `fileTooLarge` stand for the Go sentinels
`ErrFileNotFound` / `ErrFileTooLarge`; `quotaExceeded` is the distinct
`fmt.Errorf("storage quota exceeded: ...")` value the quota check produces
(it is *not* the `ErrFileTooLarge` sentinel, and `errors.Is` does not relate
them); `ioError` covers the remaining wrapped I/O and serialization
failures (the carried message is abbreviated). -/

inductive StoreError where
  | fileNotFound
  | fileTooLarge
  | quotaExceeded
  | ioError (msg : String)
deriving DecidableEq, Repr

/-- `FileMetadata`: the persisted metadata sidecar.  `apiKey` stores the
hashed owner key (`hashAPIKey`), never the plaintext. -/
structure FileMetadata where
  fileID : String
  name : String
  displayName : String
  mimeType : String
  sizeBytes : Nat
  sha256Hash : String
  uri : String
  state : String
  createdAt : Nat
  expiresAt : Nat
  uploadSource : String
  apiKey : String
deriving DecidableEq, Repr

/-- `GeminiFileStore`: the contents of the `files/` and `metadata/`
directories plus the quota configuration and the running byte counter.
`maxTotalSizeMB` is the configured ceiling (`0` = unlimited);
`expirationHours` is the retention period. -/
structure StoreState where
  files : List (String × List Nat)
  metas : List (String × FileMetadata)
  currentTotalSize : Int
  maxTotalSizeMB : Int
  expirationHours : Nat
deriving Repr

def nanosPerHour : Nat := 3600000000000

def metaPath (fileID : String) : String := "metadata/" ++ fileID ++ ".meta.json"

def contentPath (fileID : String) : String := "files/" ++ fileID

/-- `isValidFileID`: exactly 32 characters, each a hex digit.  Go checks the
string's bytes; for the ASCII strings at issue bytes and characters
coincide, and for non-ASCII input both versions reject (a multibyte string
either fails the length-32 test or has bytes outside every hex range, and
here fails the character ranges). -/
def isHexAsciiChar (c : Char) : Bool :=
  ('0' ≤ c && c ≤ '9') || ('a' ≤ c && c ≤ 'f') || ('A' ≤ c && c ≤ 'F')

def isValidFileID (fileID : String) : Bool :=
  if fileID.length ≠ 32 then false
  else fileID.data.all isHexAsciiChar

/-- `isExpired`: `now.After(metadata.ExpiresAt)`, a strict comparison. -/
def isExpired (md : FileMetadata) (now : Nat) : Bool := md.expiresAt < now

/-- `isOwnedByAPIKey`: an empty stored hash matches only the empty presented
key (no hash is computed in that branch); otherwise the stored hash must
equal the presented key's hash. -/
def isOwnedByAPIKey (md : FileMetadata) (apiKey : String) : Bool :=
  if md.apiKey = "" then apiKey = "" else md.apiKey = hashAPIKey apiKey

/-- `loadMetadata`, instrumented with the list of filesystem paths touched:
an invalid id is rejected with NotFound before any path is read. -/
def loadMetadataT (s : StoreState) (fileID : String) :
    Except StoreError FileMetadata × List String :=
  if isValidFileID fileID then
    (match fsLookup fileID s.metas with
     | some md => .ok md
     | none => .error .fileNotFound,
     [metaPath fileID])
  else (.error .fileNotFound, [])

def loadMetadata (s : StoreState) (fileID : String) : Except StoreError FileMetadata :=
  (loadMetadataT s fileID).1

/-- `GetFile`: bare metadata load — no ownership and no expiry check. -/
def GetFile (s : StoreState) (fileID : String) : Except StoreError FileMetadata :=
  loadMetadata s fileID

/-- `GetFileForAPIKey`: metadata load, then ownership and expiry checks, both
collapsed to the NotFound sentinel.  (Go re-returns `ErrFileNotFound` when
`errors.Is` matches it — the identical value — and forwards other errors.) -/
def GetFileForAPIKey (s : StoreState) (fileID apiKey : String) (now : Nat) :
    Except StoreError FileMetadata :=
  match GetFile s fileID with
  | .error e => .error e
  | .ok md =>
    if ¬ isOwnedByAPIKey md apiKey ∨ isExpired md now then .error .fileNotFound
    else .ok md

/-- `GetFileContent`, instrumented with the filesystem paths touched:
id validity is checked before the metadata read and the content open. -/
def GetFileContentT (s : StoreState) (fileID : String) (now : Nat) :
    Except StoreError (List Nat × FileMetadata) × List String :=
  if isValidFileID fileID then
    match loadMetadata s fileID with
    | .error e => (.error e, [metaPath fileID])
    | .ok md =>
      if md.expiresAt < now then (.error .fileNotFound, [metaPath fileID])
      else
        match fsLookup fileID s.files with
        | none => (.error (.ioError "failed to open file"), [metaPath fileID, contentPath fileID])
        | some bytes => (.ok (bytes, md), [metaPath fileID, contentPath fileID])
  else (.error .fileNotFound, [])

def GetFileContent (s : StoreState) (fileID : String) (now : Nat) :
    Except StoreError (List Nat × FileMetadata) :=
  (GetFileContentT s fileID now).1

/-- `GetFileContentForAPIKey`: owner-scoped metadata fetch, then content open;
returns the content bytes with the owner-checked metadata. -/
def GetFileContentForAPIKey (s : StoreState) (fileID apiKey : String) (now : Nat) :
    Except StoreError (List Nat × FileMetadata) :=
  match GetFileForAPIKey s fileID apiKey now with
  | .error e => .error e
  | .ok md =>
    match GetFileContent s fileID now with
    | .error e => .error e
    | .ok (bytes, _) => .ok (bytes, md)

/-- `ensureFileSizeAllowed`: a nonpositive ceiling means unlimited; otherwise
the declared size must not exceed the ceiling. -/
def ensureFileSizeAllowed (md : FileMetadata) (maxBytes : Int) : Except StoreError Unit :=
  if maxBytes ≤ 0 then .ok ()
  else if (md.sizeBytes : Int) ≤ maxBytes then .ok ()
  else .error .fileTooLarge

/-- `readAllWithinLimit`: read through a `LimitReader` of `maxBytes+1`; if the
bytes read exceed `maxBytes`, fail with the TooLarge sentinel. -/
def readAllWithinLimit (bytes : List Nat) (maxBytes : Int) : Except StoreError (List Nat) :=
  if maxBytes ≤ 0 then .ok bytes
  else
    let data := bytes.take (maxBytes + 1).toNat
    if (data.length : Int) > maxBytes then .error .fileTooLarge else .ok data

/-- `ReadFileBytesForAPIKey`: owner-scoped bounded read. -/
def ReadFileBytesForAPIKey (s : StoreState) (fileID apiKey : String) (maxBytes : Int)
    (now : Nat) : Except StoreError (List Nat × FileMetadata) :=
  match GetFileContentForAPIKey s fileID apiKey now with
  | .error e => .error e
  | .ok (bytes, md) =>
    match ensureFileSizeAllowed md maxBytes with
    | .error e => .error e
    | .ok _ =>
      match readAllWithinLimit bytes maxBytes with
      | .error e => .error e
      | .ok data => .ok (data, md)

/-- `ListFiles`: iterate the metadata directory entries, load each sidecar
(entries that fail to load are skipped), and keep the non-expired records. -/
def ListFiles (s : StoreState) (now : Nat) : List FileMetadata :=
  s.metas.filterMap fun p =>
    match loadMetadata s p.1 with
    | .error _ => none
    | .ok md => if isExpired md now then none else some md

def filterByAPIKey (files : List FileMetadata) (apiKey : String) : List FileMetadata :=
  files.filter fun md => md.apiKey == hashAPIKey apiKey

def ListFilesForAPIKey (s : StoreState) (apiKey : String) (now : Nat) : List FileMetadata :=
  filterByAPIKey (ListFiles s now) apiKey

/-- `deleteFileUnsafe`, instrumented with the filesystem paths touched: an
invalid id is rejected with NotFound before any stat/remove; otherwise the
counter drops by the stat'd content size (0 if the content file is absent)
and both files are removed (missing files are tolerated). -/
def deleteFileUnsafeT (s : StoreState) (fileID : String) :
    (Except StoreError Unit × StoreState) × List String :=
  if isValidFileID fileID then
    let sizeAdj : Int :=
      match fsLookup fileID s.files with
      | some bytes => (bytes.length : Int)
      | none => 0
    ((.ok (), { s with
        files := fsErase fileID s.files,
        metas := fsErase fileID s.metas,
        currentTotalSize := s.currentTotalSize - sizeAdj }),
     [contentPath fileID, metaPath fileID])
  else ((.error .fileNotFound, s), [])

def deleteFileUnsafe (s : StoreState) (fileID : String) :
    Except StoreError Unit × StoreState :=
  (deleteFileUnsafeT s fileID).1

def DeleteFile (s : StoreState) (fileID : String) : Except StoreError Unit × StoreState :=
  deleteFileUnsafe s fileID

/-- `DeleteFileForAPIKey`: owner-scoped fetch (already collapsing wrong owner
and expiry into NotFound), a redundant expiry re-check, then the delete. -/
def DeleteFileForAPIKey (s : StoreState) (fileID apiKey : String) (now : Nat) :
    Except StoreError Unit × StoreState :=
  match GetFileForAPIKey s fileID apiKey now with
  | .error e => (.error e, s)
  | .ok md =>
    if isExpired md now then (.error .fileNotFound, s)
    else DeleteFile s fileID

/-- The metadata record `SaveFile` constructs on a successful write: size is
the written byte count, the hash is the incrementally computed digest of the
written bytes, expiry is creation plus the configured retention, and the
owner key is stored hashed. -/
def mkSavedMetadata (s : StoreState) (content : List Nat)
    (name mimeType displayName apiKey : String) (now : Nat) : FileMetadata :=
  { fileID := generateFileID now
    name := name
    displayName := displayName
    mimeType := mimeType
    sizeBytes := content.length
    sha256Hash := hexEncode (sha256 content)
    uri := "files/" ++ generateFileID now
    state := "ACTIVE"
    createdAt := now
    expiresAt := now + s.expirationHours * nanosPerHour
    uploadSource := "local"
    apiKey := hashAPIKey apiKey }

/-- `SaveFile`.  The id comes from `generateFileID` on the call's timestamp;
the content is streamed to a temporary name (hashed incrementally) which the
deferred remove deletes on every path, so only the committed rename is
visible in the post-state; the quota is checked before the rename; the
metadata write's success is the `metaWriteOk` oracle, and on its failure the
content file is removed again and the counter increment reversed. -/
def SaveFile (s : StoreState) (content : List Nat)
    (name mimeType displayName apiKey : String) (now : Nat) (metaWriteOk : Bool) :
    Except StoreError FileMetadata × StoreState :=
  let fileID := generateFileID now
  let written : Int := (content.length : Int)
  if s.maxTotalSizeMB > 0 ∧ s.currentTotalSize + written > s.maxTotalSizeMB * 1024 * 1024 then
    (.error .quotaExceeded, s)
  else
    let committed : StoreState :=
      { s with files := fsInsert fileID content s.files,
               currentTotalSize := s.currentTotalSize + written }
    if metaWriteOk then
      let md : FileMetadata := mkSavedMetadata s content name mimeType displayName apiKey now
      (.ok md, { committed with metas := fsInsert fileID md committed.metas })
    else
      (.error (.ioError "failed to save metadata"),
       { committed with files := fsErase fileID committed.files,
                        currentTotalSize := committed.currentTotalSize - written })

/-- One iteration of the hourly sweep over a directory-snapshot entry. -/
def cleanupStep (now : Nat) (st : StoreState) (fileID : String) : StoreState :=
  match loadMetadata st fileID with
  | .error _ => st
  | .ok md => if md.expiresAt < now then (deleteFileUnsafe st fileID).2 else st

/-- `cleanupExpiredFiles`: sweep over the snapshot of metadata entries. -/
def cleanupExpiredFiles (s : StoreState) (now : Nat) : StoreState :=
  (s.metas.map Prod.fst).foldl (cleanupStep now) s

/-- Sum of the sizes of the content files on disk (`calculateTotalSize`). -/
def sizeOnDisk (s : StoreState) : Int :=
  (s.files.map fun p => ((p.2.length : Nat) : Int)).sum

/-- The store-size invariant: content-file names are distinct (a directory)
and the running counter equals the bytes on disk. -/
def StoreInv (s : StoreState) : Prop :=
  (s.files.map Prod.fst).Nodup ∧ s.currentTotalSize = sizeOnDisk s

instance (s : StoreState) : Decidable (StoreInv s) := by
  unfold StoreInv; infer_instance

/-! ### Facts about generated identifiers -/

theorem isHex_hexDigit (n : Nat) (hn : n < 16) : isHexAsciiChar (hexDigit n) = true := by
  have hfin : ∀ m : Fin 16, isHexAsciiChar (hexDigit m.val) = true := by decide
  exact hfin ⟨n, hn⟩

theorem hexEncode_chars_hex (bs : List Nat) (hbs : ∀ b ∈ bs, b < 256) :
    ∀ c ∈ (hexEncode bs).data, isHexAsciiChar c = true := by
  intro c hc
  have hc' : c ∈ bs.flatMap hexBytePair := hc
  rcases List.mem_flatMap.mp hc' with ⟨b, hb, hcb⟩
  have hblt : b < 256 := hbs b hb
  simp only [hexBytePair, List.mem_cons, List.not_mem_nil, or_false] at hcb
  rcases hcb with h | h <;> subst h
  · exact isHex_hexDigit _ (Nat.div_lt_of_lt_mul (by omega))
  · exact isHex_hexDigit _ (Nat.mod_lt _ (by norm_num))

theorem isValidFileID_iff (fileID : String) :
    isValidFileID fileID = true ↔
      fileID.length = 32 ∧ ∀ c ∈ fileID.data, isHexAsciiChar c = true := by
  unfold isValidFileID
  by_cases hlen : fileID.length = 32
  · simp [hlen, List.all_eq_true]
  · simp [hlen]

theorem isValidFileID_generateFileID (t : Nat) :
    isValidFileID (generateFileID t) = true := by
  rw [isValidFileID_iff]
  constructor
  · rw [generateFileID, length_hexEncode, List.length_take, length_sha256]
    norm_num
  · apply hexEncode_chars_hex
    intro b hb
    exact sha256_bytes_lt _ b (List.take_subset _ _ hb)

theorem hashAPIKey_ne_empty (apiKey : String) (hk : apiKey ≠ "") :
    hashAPIKey apiKey ≠ "" := by
  intro hcontra
  have hlen := congrArg String.length hcontra
  rw [hashAPIKey, if_neg hk, length_hexEncode, List.length_take, length_sha256] at hlen
  simp at hlen

/-- Digits recover from hex characters: the hex digit map is injective
below 16. -/
theorem hexDigit_inj (m n : Nat) (hm : m < 16) (hn : n < 16)
    (heq : hexDigit m = hexDigit n) : m = n := by
  have hfin : ∀ a b : Fin 16, hexDigit a.val = hexDigit b.val → a = b := by decide
  have := hfin ⟨m, hm⟩ ⟨n, hn⟩ heq
  exact congrArg Fin.val this

theorem hexEncode_injective (bs1 bs2 : List Nat)
    (h1 : ∀ b ∈ bs1, b < 256) (h2 : ∀ b ∈ bs2, b < 256)
    (heq : hexEncode bs1 = hexEncode bs2) : bs1 = bs2 := by
  have hdata : bs1.flatMap hexBytePair = bs2.flatMap hexBytePair := by
    have := congrArg String.data heq
    exact this
  clear heq
  induction bs1 generalizing bs2 with
  | nil =>
    cases bs2 with
    | nil => rfl
    | cons b rest => simp [hexBytePair] at hdata
  | cons b rest ih =>
    cases bs2 with
    | nil => simp [hexBytePair] at hdata
    | cons b' rest' =>
      simp only [List.flatMap_cons, hexBytePair, List.cons_append, List.nil_append,
        List.cons.injEq] at hdata
      obtain ⟨hd1, hd2, htail⟩ := hdata
      have hb : b < 256 := h1 b (by simp)
      have hb' : b' < 256 := h2 b' (by simp)
      have e1 : b / 16 = b' / 16 :=
        hexDigit_inj _ _ (Nat.div_lt_of_lt_mul (by omega)) (Nat.div_lt_of_lt_mul (by omega)) hd1
      have e2 : b % 16 = b' % 16 :=
        hexDigit_inj _ _ (Nat.mod_lt _ (by norm_num)) (Nat.mod_lt _ (by norm_num)) hd2
      have hbb : b = b' := by omega
      subst hbb
      have htl := ih rest' (fun x hx => h1 x (List.mem_cons_of_mem _ hx))
        (fun x hx => h2 x (List.mem_cons_of_mem _ hx)) htail
      rw [htl]

theorem loadMetadata_ok (s : StoreState) (fileID : String) (md : FileMetadata)
    (hok : loadMetadata s fileID = .ok md) :
    isValidFileID fileID = true ∧ fsLookup fileID s.metas = some md := by
  unfold loadMetadata loadMetadataT at hok
  by_cases hv : isValidFileID fileID
  · rw [if_pos hv] at hok
    rcases hl : fsLookup fileID s.metas with _ | md'
    · rw [hl] at hok; simp at hok
    · rw [hl] at hok; simp at hok; exact ⟨hv, by rw [hok]⟩
  · rw [if_neg hv] at hok; simp at hok

/-! ### Concrete states used by witnesses and counterexamples -/

/-- A well-formed 32-hex file id. -/
def cid : String := "00000000000000000000000000000000"

/-- A well-formed 32-hex id with no record behind it. -/
def cidMissing : String := "11111111111111111111111111111111"

/-- An anonymous-owner record expiring at tick 1000. -/
def mdA : FileMetadata :=
  { fileID := cid, name := "a.txt", displayName := "a.txt", mimeType := "text/plain",
    sizeBytes := 3, sha256Hash := "", uri := "files/" ++ cid, state := "ACTIVE",
    createdAt := 0, expiresAt := 1000, uploadSource := "local", apiKey := "" }

/-- A store holding `mdA`'s record and content. -/
def sA : StoreState :=
  { files := [(cid, [97, 97, 97])], metas := [(cid, mdA)],
    currentTotalSize := 3, maxTotalSizeMB := 0, expirationHours := 48 }

/-- **C1.**  For every store state, id and presented key: when the stored
record's owner hash does not accept the presented key (the code's ownership
predicate `isOwnedByAPIKey`, under which an empty stored hash matches only
the empty key), `GetFileForAPIKey` and `DeleteFileForAPIKey` return the
`ErrFileNotFound` sentinel and the delete leaves the state unchanged —
exactly the outcome of a nonexistent id and of an expired record, so the
three cases are indistinguishable and never succeed. -/
theorem claim_C1_owner_scope_notFound (s : StoreState) (fileID apiKey : String) (now : Nat) :
    (∀ md, loadMetadata s fileID = .ok md → isOwnedByAPIKey md apiKey = false →
      GetFileForAPIKey s fileID apiKey now = .error .fileNotFound ∧
      DeleteFileForAPIKey s fileID apiKey now = (.error .fileNotFound, s)) ∧
    (loadMetadata s fileID = .error .fileNotFound →
      GetFileForAPIKey s fileID apiKey now = .error .fileNotFound ∧
      DeleteFileForAPIKey s fileID apiKey now = (.error .fileNotFound, s)) ∧
    (∀ md, loadMetadata s fileID = .ok md → isExpired md now = true →
      GetFileForAPIKey s fileID apiKey now = .error .fileNotFound ∧
      DeleteFileForAPIKey s fileID apiKey now = (.error .fileNotFound, s)) := by
  refine ⟨?_, ?_, ?_⟩
  · intro md hload howned
    have hg : GetFileForAPIKey s fileID apiKey now = .error .fileNotFound := by
      simp [GetFileForAPIKey, GetFile, hload, howned]
    exact ⟨hg, by simp [DeleteFileForAPIKey, hg]⟩
  · intro hload
    have hg : GetFileForAPIKey s fileID apiKey now = .error .fileNotFound := by
      simp [GetFileForAPIKey, GetFile, hload]
    exact ⟨hg, by simp [DeleteFileForAPIKey, hg]⟩
  · intro md hload hexp
    have hg : GetFileForAPIKey s fileID apiKey now = .error .fileNotFound := by
      simp [GetFileForAPIKey, GetFile, hload, hexp]
    exact ⟨hg, by simp [DeleteFileForAPIKey, hg]⟩

theorem claim_C1_owner_scope_notFound_witness :
    ((GetFileForAPIKey sA cid "other-key" 0 = .error .fileNotFound ∧
      DeleteFileForAPIKey sA cid "other-key" 0 = (.error .fileNotFound, sA)) ∧
     (GetFileForAPIKey sA cidMissing "" 0 = .error .fileNotFound ∧
      DeleteFileForAPIKey sA cidMissing "" 0 = (.error .fileNotFound, sA)) ∧
     (GetFileForAPIKey sA cid "" 2000 = .error .fileNotFound ∧
      DeleteFileForAPIKey sA cid "" 2000 = (.error .fileNotFound, sA))) :=
  ⟨(claim_C1_owner_scope_notFound sA cid "other-key" 0).1 mdA rfl (by decide),
   (claim_C1_owner_scope_notFound sA cidMissing "" 0).2.1 rfl,
   (claim_C1_owner_scope_notFound sA cid "" 2000).2.2 mdA rfl (by decide)⟩

/-- **C2.**  Every id that is not exactly 32 hex characters is rejected with
the NotFound sentinel by the metadata load (hence `GetFile`,
`GetFileForAPIKey`, and the per-entry loads of `ListFiles`), by
`GetFileContent`, and by `deleteFileUnsafe`/`DeleteFile`/
`DeleteFileForAPIKey`; the instrumented variants record an empty list of
filesystem paths touched, i.e. the rejection precedes any filesystem
access, and deletes leave the state unchanged. -/
theorem claim_C2_invalid_id_rejected (s : StoreState) (fileID apiKey : String) (now : Nat)
    (hbad : ¬ (fileID.length = 32 ∧ ∀ c ∈ fileID.data, isHexAsciiChar c = true)) :
    loadMetadataT s fileID = (.error .fileNotFound, []) ∧
    GetFile s fileID = .error .fileNotFound ∧
    GetFileForAPIKey s fileID apiKey now = .error .fileNotFound ∧
    GetFileContentT s fileID now = (.error .fileNotFound, []) ∧
    deleteFileUnsafeT s fileID = ((.error .fileNotFound, s), []) ∧
    DeleteFile s fileID = (.error .fileNotFound, s) ∧
    DeleteFileForAPIKey s fileID apiKey now = (.error .fileNotFound, s) := by
  have hvalid : isValidFileID fileID = false := by
    rw [← Bool.not_eq_true, isValidFileID_iff]
    exact hbad
  have h1 : loadMetadataT s fileID = (.error .fileNotFound, []) := by
    simp [loadMetadataT, hvalid]
  have h2 : GetFile s fileID = .error .fileNotFound := by
    simp [GetFile, loadMetadata, h1]
  have h3 : GetFileForAPIKey s fileID apiKey now = .error .fileNotFound := by
    simp [GetFileForAPIKey, h2]
  have h5 : deleteFileUnsafeT s fileID = ((.error .fileNotFound, s), []) := by
    simp [deleteFileUnsafeT, hvalid]
  refine ⟨h1, h2, h3, by simp [GetFileContentT, hvalid], h5,
    by simp [DeleteFile, deleteFileUnsafe, h5], by simp [DeleteFileForAPIKey, h3]⟩

theorem claim_C2_invalid_id_rejected_witness :
    (loadMetadataT sA ".." = (.error .fileNotFound, []) ∧
     GetFile sA ".." = .error .fileNotFound ∧
     GetFileForAPIKey sA ".." "" 0 = .error .fileNotFound ∧
     GetFileContentT sA ".." 0 = (.error .fileNotFound, []) ∧
     deleteFileUnsafeT sA ".." = ((.error .fileNotFound, sA), []) ∧
     DeleteFile sA ".." = (.error .fileNotFound, sA) ∧
     DeleteFileForAPIKey sA ".." "" 0 = (.error .fileNotFound, sA)) ∧
    (loadMetadataT sA "%5c..%5c..%5csecret" = (.error .fileNotFound, []) ∧
     GetFile sA "%5c..%5c..%5csecret" = .error .fileNotFound ∧
     GetFileForAPIKey sA "%5c..%5c..%5csecret" "" 0 = .error .fileNotFound ∧
     GetFileContentT sA "%5c..%5c..%5csecret" 0 = (.error .fileNotFound, []) ∧
     deleteFileUnsafeT sA "%5c..%5c..%5csecret" = ((.error .fileNotFound, sA), []) ∧
     DeleteFile sA "%5c..%5c..%5csecret" = (.error .fileNotFound, sA) ∧
     DeleteFileForAPIKey sA "%5c..%5c..%5csecret" "" 0 = (.error .fileNotFound, sA)) :=
  ⟨claim_C2_invalid_id_rejected sA ".." "" 0 (by decide),
   claim_C2_invalid_id_rejected sA "%5c..%5c..%5csecret" "" 0 (by decide)⟩

/-- **C3 (counterexample).**  The claim asserts that direct `GetFile` on an
expired record returns NotFound.  In the code `GetFile` is a bare metadata
load with no expiry check: on a store holding a record expired at tick 1000,
at tick 2000 `GetFile` returns the record itself, not NotFound, while the
content and metadata files are still present on disk. -/
theorem claim_C3_counterexample :
    isExpired mdA 2000 = true ∧
    GetFile sA cid = .ok mdA ∧
    GetFile sA cid ≠ .error .fileNotFound ∧
    fsLookup cid sA.files = some [97, 97, 97] ∧
    fsLookup cid sA.metas = some mdA := by
  refine ⟨by decide, rfl, ?_, rfl, rfl⟩
  have hok : GetFile sA cid = .ok mdA := rfl
  rw [hok]
  simp

/-- **C3 (amended).**  For every record whose `expiresAt` is past, `ListFiles`
excludes it, and the owner-scoped `GetFileForAPIKey` (the lookup the HTTP
Get endpoint performs) and `GetFileContent` return NotFound; the bare
`GetFile` method performs no expiry check.  Reads are pure in this model, so
the on-disk files are untouched until a delete or sweep. -/
theorem claim_C3_expired_invisible (s : StoreState) (now : Nat) :
    (∀ md ∈ ListFiles s now, isExpired md now = false) ∧
    (∀ fileID apiKey md, loadMetadata s fileID = .ok md → isExpired md now = true →
      GetFileForAPIKey s fileID apiKey now = .error .fileNotFound ∧
      GetFileContent s fileID now = .error .fileNotFound) := by
  constructor
  · intro md hmd
    rcases List.mem_filterMap.mp hmd with ⟨p, _, hf⟩
    rcases hE : loadMetadata s p.1 with e | md'
    · rw [hE] at hf; simp at hf
    · rw [hE] at hf
      by_cases hx : isExpired md' now
      · simp [hx] at hf
      · simp [hx] at hf
        rw [← hf]
        exact Bool.not_eq_true _ |>.mp hx
  · intro fileID apiKey md hload hexp
    obtain ⟨hvalid, _⟩ := loadMetadata_ok s fileID md hload
    constructor
    · simp [GetFileForAPIKey, GetFile, hload, hexp]
    · have hlt : md.expiresAt < now := by
        simpa [isExpired] using hexp
      simp [GetFileContent, GetFileContentT, hvalid, loadMetadata] at *
      simp [hload, hlt]

theorem claim_C3_expired_invisible_witness :
    GetFileForAPIKey sA cid "" 2000 = .error .fileNotFound ∧
    GetFileContent sA cid 2000 = .error .fileNotFound :=
  (claim_C3_expired_invisible sA 2000).2 cid "" mdA rfl (by decide)

/-- A store sitting exactly at a 1 MB quota ceiling. -/
def sQuota : StoreState :=
  { files := [], metas := [], currentTotalSize := 1048576, maxTotalSizeMB := 1,
    expirationHours := 48 }

/-- **C4 (counterexample).**  The claim says a quota-exceeding save fails
with the TooLarge error (`ErrFileTooLarge`).  The quota branch of `SaveFile`
returns a freshly formatted "storage quota exceeded" error instead — a
distinct value the `errors.Is(·, ErrFileTooLarge)` test rejects: saving one
byte into a store at its 1 MB ceiling yields `quotaExceeded`, not
`fileTooLarge`. -/
theorem claim_C4_counterexample :
    (SaveFile sQuota [7] "n.bin" "application/octet-stream" "n" "key" 0 true).1 =
      .error .quotaExceeded ∧
    StoreError.quotaExceeded ≠ StoreError.fileTooLarge := by
  constructor
  · rfl
  · decide

/-- **C4 (amended).**  On a store with a nonzero quota ceiling, a save whose
written byte count added to the running total would exceed the ceiling fails
with the quota-exceeded error — a value distinct from the `ErrFileTooLarge`
sentinel (the HTTP layer surfaces it as Internal) — and returns the state
unchanged: the running total is untouched and the content is never
published under its final name. -/
theorem claim_C4_quota_rejection (s : StoreState) (content : List Nat)
    (name mimeType displayName apiKey : String) (now : Nat) (metaWriteOk : Bool)
    (hpos : s.maxTotalSizeMB > 0)
    (hover : s.currentTotalSize + (content.length : Int) > s.maxTotalSizeMB * 1024 * 1024) :
    SaveFile s content name mimeType displayName apiKey now metaWriteOk =
      (.error .quotaExceeded, s) := by
  simp only [SaveFile]
  rw [if_pos ⟨hpos, hover⟩]

theorem claim_C4_quota_rejection_witness :
    SaveFile sQuota [1, 2, 3] "m.bin" "application/octet-stream" "m" "key-b" 5 false =
      (.error .quotaExceeded, sQuota) :=
  claim_C4_quota_rejection sQuota [1, 2, 3] "m.bin" "application/octet-stream" "m" "key-b" 5
    false (by decide) (by decide)

/-! ### The store-size invariant (claim C5) -/

theorem fsLookup_none_iff {α : Type} (key : String) (dir : List (String × α)) :
    fsLookup key dir = none ↔ key ∉ dir.map Prod.fst := by
  induction dir with
  | nil => simp [fsLookup]
  | cons p rest ih =>
    rw [fsLookup_cons]
    by_cases hp : p.1 = key
    · simp [hp]
    · simp [hp, ih, Ne.symm hp]

theorem nodup_fsErase {α : Type} (key : String) (dir : List (String × α))
    (hnd : (dir.map Prod.fst).Nodup) : ((fsErase key dir).map Prod.fst).Nodup :=
  List.Nodup.sublist (List.Sublist.map Prod.fst (List.filter_sublist dir)) hnd

theorem nodup_fsInsert {α : Type} (key : String) (v : α) (dir : List (String × α))
    (hnd : (dir.map Prod.fst).Nodup) : ((fsInsert key v dir).map Prod.fst).Nodup := by
  rw [fsInsert, List.map_cons]
  refine List.Nodup.cons ?_ (nodup_fsErase key dir hnd)
  exact fun hmem =>
    (fsLookup_none_iff key (fsErase key dir)).mp (fsLookup_erase_self key dir) hmem

theorem fsErase_fsErase {α : Type} (key : String) (dir : List (String × α)) :
    fsErase key (fsErase key dir) = fsErase key dir := by
  induction dir with
  | nil => rfl
  | cons p rest ih =>
    by_cases hp : p.1 = key
    · rw [fsErase_cons_self key p rest hp, ih]
    · rw [fsErase_cons_ne key p rest hp, fsErase_cons_ne key p _ hp, ih]

theorem fsErase_fsInsert {α : Type} (key : String) (v : α) (dir : List (String × α)) :
    fsErase key (fsInsert key v dir) = fsErase key dir := by
  rw [fsInsert, fsErase_cons_self key (key, v) _ rfl, fsErase_fsErase]

theorem sum_fsErase (key : String) (dir : List (String × List Nat)) (b : List Nat)
    (hnd : (dir.map Prod.fst).Nodup) (hl : fsLookup key dir = some b) :
    ((fsErase key dir).map fun p => ((p.2.length : Nat) : Int)).sum =
      (dir.map fun p => ((p.2.length : Nat) : Int)).sum - (b.length : Int) := by
  induction dir with
  | nil => simp [fsLookup] at hl
  | cons p rest ih =>
    rw [fsLookup_cons] at hl
    rw [List.map_cons, List.nodup_cons] at hnd
    by_cases hp : p.1 = key
    · rw [if_pos hp] at hl
      have hb : p.2 = b := by simpa using hl
      have hrest : fsLookup key rest = none := by
        rw [fsLookup_none_iff, ← hp]
        exact hnd.1
      rw [fsErase_cons_self key p rest hp, fsErase_of_lookup_none key rest hrest,
        List.map_cons, List.sum_cons, ← hb]
      omega
    · rw [if_neg hp] at hl
      rw [fsErase_cons_ne key p rest hp, List.map_cons, List.sum_cons, List.map_cons,
        List.sum_cons, ih hnd.2 hl]
      omega

/-- `deleteFileUnsafe` on a valid id, as an explicit post-state. -/
theorem deleteFileUnsafe_eq (s : StoreState) (fileID : String)
    (hv : isValidFileID fileID = true) :
    deleteFileUnsafe s fileID =
      (.ok (), { s with
        files := fsErase fileID s.files,
        metas := fsErase fileID s.metas,
        currentTotalSize := s.currentTotalSize -
          (match fsLookup fileID s.files with
           | some bytes => ((bytes.length : Nat) : Int)
           | none => 0) }) := by
  unfold deleteFileUnsafe deleteFileUnsafeT
  rw [if_pos hv]

theorem deleteFileUnsafe_inv (s : StoreState) (fileID : String) (hinv : StoreInv s) :
    StoreInv (deleteFileUnsafe s fileID).2 := by
  obtain ⟨hnd, hsum⟩ := hinv
  rw [sizeOnDisk] at hsum
  by_cases hv : isValidFileID fileID
  · rw [deleteFileUnsafe_eq s fileID hv]
    rcases hl : fsLookup fileID s.files with _ | b
    · have herase := fsErase_of_lookup_none fileID s.files hl
      refine ⟨by simpa [herase] using hnd, ?_⟩
      show s.currentTotalSize - 0 = sizeOnDisk _
      rw [sizeOnDisk]
      simp only [herase]
      omega
    · refine ⟨nodup_fsErase fileID s.files hnd, ?_⟩
      show s.currentTotalSize - ((b.length : Nat) : Int) = sizeOnDisk _
      rw [sizeOnDisk]
      simp only
      rw [sum_fsErase fileID s.files b hnd hl]
      omega
  · unfold deleteFileUnsafe deleteFileUnsafeT
    rw [if_neg hv]
    exact ⟨hnd, by rw [sizeOnDisk]; exact hsum⟩

/-- The quota-passing, metadata-failing branch of `SaveFile`, as an explicit
post-state. -/
theorem saveFile_metaFail_eq (s : StoreState) (content : List Nat)
    (name mimeType displayName apiKey : String) (now : Nat)
    (hq : ¬ (s.maxTotalSizeMB > 0 ∧
      s.currentTotalSize + (content.length : Int) > s.maxTotalSizeMB * 1024 * 1024)) :
    SaveFile s content name mimeType displayName apiKey now false =
      (.error (.ioError "failed to save metadata"),
       { s with files := fsErase (generateFileID now) s.files,
                currentTotalSize := s.currentTotalSize + (content.length : Int) -
                  (content.length : Int) }) := by
  unfold SaveFile
  rw [if_neg hq, if_neg Bool.false_ne_true, fsErase_fsInsert]

theorem saveFile_inv (s : StoreState) (content : List Nat)
    (name mimeType displayName apiKey : String) (now : Nat) (metaWriteOk : Bool)
    (hinv : StoreInv s) (hfresh : fsLookup (generateFileID now) s.files = none) :
    StoreInv (SaveFile s content name mimeType displayName apiKey now metaWriteOk).2 := by
  obtain ⟨hnd, hsum⟩ := hinv
  rw [sizeOnDisk] at hsum
  have herase := fsErase_of_lookup_none (generateFileID now) s.files hfresh
  by_cases hq : s.maxTotalSizeMB > 0 ∧
      s.currentTotalSize + (content.length : Int) > s.maxTotalSizeMB * 1024 * 1024
  · unfold SaveFile
    rw [if_pos hq]
    exact ⟨hnd, by rw [sizeOnDisk]; exact hsum⟩
  · cases metaWriteOk with
    | true =>
      unfold SaveFile
      rw [if_neg hq, if_pos rfl]
      refine ⟨nodup_fsInsert _ _ _ hnd, ?_⟩
      show s.currentTotalSize + (content.length : Int) = sizeOnDisk _
      rw [sizeOnDisk]
      simp only [fsInsert, herase, List.map_cons, List.sum_cons]
      omega
    | false =>
      rw [saveFile_metaFail_eq s content name mimeType displayName apiKey now hq]
      refine ⟨by simpa [herase] using hnd, ?_⟩
      show s.currentTotalSize + (content.length : Int) - (content.length : Int) = sizeOnDisk _
      rw [sizeOnDisk]
      simp only [herase]
      omega

theorem cleanupStep_inv (now : Nat) (s : StoreState) (fileID : String)
    (hinv : StoreInv s) : StoreInv (cleanupStep now s fileID) := by
  unfold cleanupStep
  rcases hE : loadMetadata s fileID with e | md
  · exact hinv
  · by_cases hx : md.expiresAt < now
    · simpa [hx] using deleteFileUnsafe_inv s fileID hinv
    · simpa [hx] using hinv

theorem cleanupFold_inv (now : Nat) (ids : List String) (s : StoreState)
    (hinv : StoreInv s) : StoreInv (ids.foldl (cleanupStep now) s) := by
  induction ids generalizing s with
  | nil => exact hinv
  | cons fileID rest ih => exact ih _ (cleanupStep_inv now s fileID hinv)

/-- A store state holding one content file under the very id that
`generateFileID` yields for timestamp 0. -/
def sCollide : StoreState :=
  { files := [(generateFileID 0, [7])], metas := [],
    currentTotalSize := 1, maxTotalSizeMB := 0, expirationHours := 48 }

/-- **C5 (counterexample).**  The claim asserts the size invariant is
preserved by *every* operation including failed saves.  When the generated
id collides with an existing content file — which the code permits, since
ids are a pure function of the save timestamp (see C9) — a save whose
metadata write fails removes the pre-existing file (the rename had
overwritten it) while reversing only its own counter increment: from an
invariant-satisfying store holding one 1-byte file under `generateFileID 0`,
a failed 2-byte save at timestamp 0 leaves the counter at 1 with no files on
disk, so the invariant is broken. -/
theorem claim_C5_counterexample :
    StoreInv sCollide ∧
    ¬ StoreInv (SaveFile sCollide [1, 2] "n.bin" "application/octet-stream" "n" "" 0 false).2 := by
  have hq : ¬ (sCollide.maxTotalSizeMB > 0 ∧
      sCollide.currentTotalSize + (([1, 2] : List Nat).length : Int) >
        sCollide.maxTotalSizeMB * 1024 * 1024) := by
    intro hc
    exact absurd hc.1 (by decide)
  have hpost := saveFile_metaFail_eq sCollide [1, 2] "n.bin" "application/octet-stream"
    "n" "" 0 hq
  have hfe : fsErase (generateFileID 0) sCollide.files = [] := by
    show fsErase (generateFileID 0) [(generateFileID 0, [7])] = []
    rw [fsErase_cons_self (generateFileID 0) (generateFileID 0, [7]) [] rfl]
    rfl
  constructor
  · exact ⟨by decide, by decide⟩
  · intro hcontra
    have hc2 := hcontra.2
    rw [hpost] at hc2
    rw [sizeOnDisk] at hc2
    simp only [hfe] at hc2
    revert hc2
    show ¬ ((1 : Int) + 2 - 2 = ([] : List Int).sum)
    decide

/-- **C5 (amended).**  Provided the freshly generated id does not collide
with an existing content file (true whenever save timestamps are distinct),
the store-size invariant — distinct content-file names and the running
counter equal to the sum of the content-file sizes on disk — is preserved by
every state-changing operation, including a quota-rejected save and a save
whose metadata write fails after the content write (the compensating
removal and counter reversal restore it); and an explicit delete of an
existing content file decrements the counter by exactly that file's size. -/
theorem claim_C5_size_invariant (s : StoreState) (hinv : StoreInv s) :
    (∀ content name mimeType displayName apiKey now metaWriteOk,
       fsLookup (generateFileID now) s.files = none →
       StoreInv (SaveFile s content name mimeType displayName apiKey now metaWriteOk).2) ∧
    (∀ fileID, StoreInv (DeleteFile s fileID).2) ∧
    (∀ fileID apiKey now, StoreInv (DeleteFileForAPIKey s fileID apiKey now).2) ∧
    (∀ now, StoreInv (cleanupExpiredFiles s now)) ∧
    (∀ fileID bytes, isValidFileID fileID = true → fsLookup fileID s.files = some bytes →
       (DeleteFile s fileID).2.currentTotalSize =
         s.currentTotalSize - (bytes.length : Int)) := by
  refine ⟨?_, ?_, ?_, ?_, ?_⟩
  · intro content name mimeType displayName apiKey now metaWriteOk hfresh
    exact saveFile_inv s content name mimeType displayName apiKey now metaWriteOk hinv hfresh
  · intro fileID
    exact deleteFileUnsafe_inv s fileID hinv
  · intro fileID apiKey now
    unfold DeleteFileForAPIKey
    rcases hg : GetFileForAPIKey s fileID apiKey now with e | md
    · exact hinv
    · by_cases hx : isExpired md now
      · simpa [hx] using hinv
      · simpa [hx] using deleteFileUnsafe_inv s fileID hinv
  · intro now
    exact cleanupFold_inv now _ s hinv
  · intro fileID bytes hv hl
    rw [DeleteFile, deleteFileUnsafe_eq s fileID hv, hl]

/-- A store with no content files at all. -/
def sEmpty : StoreState :=
  { files := [], metas := [], currentTotalSize := 0, maxTotalSizeMB := 0,
    expirationHours := 48 }

theorem claim_C5_size_invariant_witness :
    StoreInv (SaveFile sEmpty [5, 6] "b.bin" "application/octet-stream" "b" "" 0 true).2 ∧
    (DeleteFile sA cid).2.currentTotalSize = sA.currentTotalSize - (3 : Int) :=
  ⟨(claim_C5_size_invariant sEmpty (by exact ⟨by decide, by decide⟩)).1 [5, 6] "b.bin"
      "application/octet-stream" "b" "" 0 true rfl,
   (claim_C5_size_invariant sA (by exact ⟨by decide, by decide⟩)).2.2.2.2 cid [97, 97, 97]
      (by decide) (by decide)⟩

/-! ### Round-trip save/get (claim C8) and identifier generation (claim C9) -/

theorem isOwned_of_hash (md : FileMetadata) (apiKey : String)
    (hm : md.apiKey = hashAPIKey apiKey) : isOwnedByAPIKey md apiKey = true := by
  unfold isOwnedByAPIKey
  by_cases hk : apiKey = ""
  · subst hk
    rw [hm]
    simp [hashAPIKey]
  · have hne := hashAPIKey_ne_empty apiKey hk
    rw [hm, if_neg hne]
    simp

/-- **C8.**  Whenever `SaveFile` succeeds (quota passed, metadata written),
`GetFileForAPIKey` on the post-state with the same owner key and the
returned id succeeds with exactly the saved record, whose `sizeBytes` is the
exact length of the saved bytes and whose `sha256Hash` is the hex-encoded
SHA-256 digest of the saved bytes. -/
theorem claim_C8_roundtrip (s : StoreState) (content : List Nat)
    (name mimeType displayName apiKey : String) (now : Nat) (md : FileMetadata)
    (hok : (SaveFile s content name mimeType displayName apiKey now true).1 = .ok md) :
    GetFileForAPIKey (SaveFile s content name mimeType displayName apiKey now true).2
        md.fileID apiKey now = .ok md ∧
    md.sizeBytes = content.length ∧
    md.sha256Hash = hexEncode (sha256 content) := by
  unfold SaveFile at hok ⊢
  by_cases hq : s.maxTotalSizeMB > 0 ∧
      s.currentTotalSize + (content.length : Int) > s.maxTotalSizeMB * 1024 * 1024
  · rw [if_pos hq] at hok
    exact absurd hok (by simp)
  · rw [if_neg hq] at hok ⊢
    rw [if_pos rfl] at hok ⊢
    have hmd : mkSavedMetadata s content name mimeType displayName apiKey now = md := by
      simpa using hok
    subst hmd
    refine ⟨?_, rfl, rfl⟩
    have hv := isValidFileID_generateFileID now
    have hload : loadMetadata
        { s with files := fsInsert (generateFileID now) content s.files,
                 currentTotalSize := s.currentTotalSize + (content.length : Int),
                 metas := fsInsert (generateFileID now)
                   (mkSavedMetadata s content name mimeType displayName apiKey now) s.metas }
        (generateFileID now) =
        .ok (mkSavedMetadata s content name mimeType displayName apiKey now) := by
      unfold loadMetadata loadMetadataT
      rw [if_pos hv]
      simp only [fsLookup_insert_self]
    have howned : isOwnedByAPIKey
        (mkSavedMetadata s content name mimeType displayName apiKey now) apiKey = true :=
      isOwned_of_hash _ apiKey rfl
    have hexp : isExpired
        (mkSavedMetadata s content name mimeType displayName apiKey now) now = false := by
      simp [isExpired, mkSavedMetadata]
    show GetFileForAPIKey _ (generateFileID now) apiKey now = _
    unfold GetFileForAPIKey GetFile
    rw [hload]
    simp [howned, hexp]

def helloBytes : List Nat := [104, 101, 108, 108, 111]

def mdHello : FileMetadata :=
  mkSavedMetadata sEmpty helloBytes "hello.txt" "text/plain" "hello.txt" "key-a" 0

theorem claim_C8_roundtrip_witness :
    GetFileForAPIKey
        (SaveFile sEmpty helloBytes "hello.txt" "text/plain" "hello.txt" "key-a" 0 true).2
        mdHello.fileID "key-a" 0 = .ok mdHello ∧
    mdHello.sizeBytes = 5 ∧
    mdHello.sha256Hash = hexEncode (sha256 helloBytes) := by
  have h := claim_C8_roundtrip sEmpty helloBytes "hello.txt" "text/plain" "hello.txt"
    "key-a" 0 mdHello rfl
  exact ⟨h.1, h.2.1, h.2.2⟩

def isOkE {ε α : Type} (r : Except ε α) : Bool :=
  match r with
  | .ok _ => true
  | .error _ => false

def savedFileID (r : Except StoreError FileMetadata) : String :=
  match r with
  | .ok md => md.fileID
  | .error _ => ""

/-- The first of two back-to-back saves at nanosecond timestamp 0. -/
def saveFirst : Except StoreError FileMetadata × StoreState :=
  SaveFile sEmpty [1] "a.bin" "application/octet-stream" "a" "" 0 true

/-- The second save, against the first's post-state, at the same timestamp. -/
def saveSecond : Except StoreError FileMetadata × StoreState :=
  SaveFile saveFirst.2 [2] "b.bin" "application/octet-stream" "b" "" 0 true

/-- **C9 (counterexample).**  Ids are a pure function of the nanosecond save
timestamp with no uniqueness check, so two `SaveFile` invocations in the
same nanosecond — both succeeding — produce the *same* file id, refuting
"for any two SaveFile invocations, the generated file ids are distinct". -/
theorem claim_C9_counterexample :
    isOkE saveFirst.1 = true ∧ isOkE saveSecond.1 = true ∧
    savedFileID saveFirst.1 = savedFileID saveSecond.1 := by
  exact ⟨rfl, rfl, rfl⟩

/-- **C9 (amended).**  Every id `SaveFile` generates is exactly 32 lowercase
hex characters (so `isValidFileID` accepts it), and it is a deterministic
function of the save's nanosecond timestamp — the hex encoding of the first
16 bytes of the SHA-256 of the decimal timestamp.  Two invocations generate
distinct ids only when those truncated digests differ (in particular their
timestamps must differ); same-nanosecond invocations collide. -/
theorem claim_C9_id_generation (t1 t2 : Nat) :
    isValidFileID (generateFileID t1) = true ∧
    ((sha256 (strBytes (toString t1))).take 16 ≠ (sha256 (strBytes (toString t2))).take 16 →
      generateFileID t1 ≠ generateFileID t2) ∧
    (∀ s content name mimeType displayName apiKey metaWriteOk md,
       (SaveFile s content name mimeType displayName apiKey t1 metaWriteOk).1 = .ok md →
       md.fileID = generateFileID t1) := by
  refine ⟨isValidFileID_generateFileID t1, ?_, ?_⟩
  · intro hne heq
    apply hne
    apply hexEncode_injective
    · exact fun b hb => sha256_bytes_lt _ b (List.take_subset _ _ hb)
    · exact fun b hb => sha256_bytes_lt _ b (List.take_subset _ _ hb)
    · exact heq
  · intro s content name mimeType displayName apiKey metaWriteOk md hok
    unfold SaveFile at hok
    by_cases hq : s.maxTotalSizeMB > 0 ∧
        s.currentTotalSize + (content.length : Int) > s.maxTotalSizeMB * 1024 * 1024
    · rw [if_pos hq] at hok
      exact absurd hok (by simp)
    · rw [if_neg hq] at hok
      cases metaWriteOk with
      | true =>
        rw [if_pos rfl] at hok
        have hmd : mkSavedMetadata s content name mimeType displayName apiKey t1 = md := by
          simpa using hok
        rw [← hmd]
        rfl
      | false =>
        rw [if_neg Bool.false_ne_true] at hok
        exact absurd hok (by simp)

theorem claim_C9_id_generation_witness :
    isValidFileID (generateFileID 0) = true ∧
    generateFileID 0 ≠ generateFileID 1 ∧
    savedFileID saveFirst.1 = generateFileID 0 := by
  have h := claim_C9_id_generation 0 1
  refine ⟨h.1, h.2.1 (by decide), ?_⟩
  have hids := h.2.2 sEmpty [1] "a.bin" "application/octet-stream" "a" "" true
    (mkSavedMetadata sEmpty [1] "a.bin" "application/octet-stream" "a" "" 0) rfl
  exact hids

/-! ### Trimming (`strings.TrimSpace`)

Leading and trailing whitespace removal.  Over the ASCII inputs at issue
this coincides with Go's Unicode-aware `TrimSpace`. -/

def isTrimSpace (c : Char) : Bool :=
  c = ' ' || c = '\t' || c = '\n' || c = '\r' || c = '\x0b' || c = '\x0c'

def trimChars (l : List Char) : List Char :=
  ((l.dropWhile isTrimSpace).reverse.dropWhile isTrimSpace).reverse

def strTrim (s : String) : String := String.mk (trimChars s.data)

theorem dropWhile_dropWhile_same {α : Type} (p : α → Bool) (l : List α) :
    (l.dropWhile p).dropWhile p = l.dropWhile p := by
  induction l with
  | nil => rfl
  | cons a t ih =>
    by_cases h : p a
    · simp [List.dropWhile_cons, h, ih]
    · simp [List.dropWhile_cons, h]

theorem dropWhile_fix_head {α : Type} (p : α → Bool) (a : α) (t : List α)
    (hfix : (a :: t).dropWhile p = a :: t) : p a = false := by
  by_contra hcon
  have hpa : p a = true := by revert hcon; cases p a <;> simp
  rw [List.dropWhile_cons, if_pos hpa] at hfix
  have hle : (t.dropWhile p).length ≤ t.length :=
    (List.dropWhile_suffix p).length_le
  have := congrArg List.length hfix
  simp at this
  omega

/-- Dropping trailing matches preserves a front-trimmed list's fixed point:
the remaining head still refuses `p`. -/
theorem dropWhile_reverse_dropWhile {α : Type} (p : α → Bool) (X : List α)
    (hfix : X.dropWhile p = X) :
    ((X.reverse.dropWhile p).reverse).dropWhile p = (X.reverse.dropWhile p).reverse := by
  cases hX : X with
  | nil => simp
  | cons a t =>
    rw [hX] at hfix
    have hpa : p a = false := dropWhile_fix_head p a t hfix
    rcases hs : (a :: t).reverse.dropWhile p with _ | ⟨b, w⟩
    · simp
    · have hsuf : (b :: w) <:+ (a :: t).reverse := by
        rw [← hs]; exact List.dropWhile_suffix p
      have hlast : (b :: w).getLast? = some a := by
        rcases hsuf with ⟨u, hu⟩
        have h1 : (u ++ (b :: w)).getLast? = some a := by
          rw [hu, List.reverse_cons, List.getLast?_concat]
        rw [List.getLast?_append] at h1
        rcases hbw : (b :: w).getLast? with _ | x
        · simp at hbw
        · rw [hbw] at h1
          simpa using h1
      have hhead : (b :: w).reverse.head? = some a := by
        rw [List.head?_reverse, hlast]
      rcases hr : (b :: w).reverse with _ | ⟨c, v⟩
      · rw [hr] at hhead; simp at hhead
      · rw [hr] at hhead
        have hc : c = a := by simpa using hhead
        rw [List.dropWhile_cons, hc, hpa]
        simp

theorem trimChars_idem (l : List Char) : trimChars (trimChars l) = trimChars l := by
  unfold trimChars
  have hfix : ((((l.dropWhile isTrimSpace).reverse.dropWhile
      isTrimSpace).reverse).dropWhile isTrimSpace) =
      ((l.dropWhile isTrimSpace).reverse.dropWhile isTrimSpace).reverse :=
    dropWhile_reverse_dropWhile isTrimSpace (l.dropWhile isTrimSpace)
      (dropWhile_dropWhile_same isTrimSpace l)
  rw [hfix, List.reverse_reverse, dropWhile_dropWhile_same]

theorem strTrim_idem (s : String) : strTrim (strTrim s) = strTrim s := by
  unfold strTrim
  rw [trimChars_idem]

theorem strTrim_empty : strTrim "" = "" := rfl

/-! ### Upstream proxy resumable sessions (`handleResumableFollowUp`,
`sessionAuthID`, `bindSession`, `dropSession`; claim C7)

The handler's interaction with the credential executor is captured in the
result: `executed` records the metadata the handler sets for the pinned
upstream call — `ForceAuthIDMetadataKey` (the credential id) and
`NoRetryMetadataKey` (retry/failover disabled) — while `clientError` is the
`writeGeminiFileError` response written *before* any executor call, so no
credential is ever selected on that path.  Whether the pinned execution
itself succeeded is the `execOk` oracle. -/

def strToLower (s : String) : String := String.mk (s.data.map Char.toLower)

def charsContain (l pat : List Char) : Bool := l.tails.any (fun t => pat.isPrefixOf t)

/-- `strings.Contains`. -/
def strContainsSub (s pat : String) : Bool := charsContain s.data pat.data

structure UploadSessionE where
  authID : String
  expiresAt : Nat
deriving DecidableEq, Repr

abbrev Sessions := List (String × UploadSessionE)

/-- `sessionAuthID`: trim, reject empty; a missing, anonymous or expired
entry is (re)moved and reported absent; otherwise the bound credential id is
returned and the table is untouched. -/
def sessionAuthID (sessions : Sessions) (uploadID : String) (now : Nat) :
    Option String × Sessions :=
  let u := strTrim uploadID
  if u = "" then (none, sessions)
  else
    match fsLookup u sessions with
    | none => (none, fsErase u sessions)
    | some sess =>
      if sess.authID = "" ∨ sess.expiresAt < now then (none, fsErase u sessions)
      else (some sess.authID, sessions)

/-- `bindSession`: ignore blank ids, otherwise bind the upstream upload token
to the selected credential with a fixed 2-hour TTL. -/
def bindSession (sessions : Sessions) (uploadID authID : String) (now : Nat) : Sessions :=
  if strTrim uploadID = "" ∨ strTrim authID = "" then sessions
  else fsInsert uploadID ⟨authID, now + 2 * nanosPerHour⟩ sessions

/-- `dropSession`. -/
def dropSession (sessions : Sessions) (uploadID : String) : Sessions :=
  let u := strTrim uploadID
  if u = "" then sessions else fsErase u sessions

inductive FollowUpResult where
  | clientError (status : Nat) (message : String) (code : String)
  | executed (forcedAuthID : String) (noRetry : Bool) (execOk : Bool)
deriving DecidableEq, Repr

/-- `handleResumableFollowUp`: look up the session bound to the `upload_id`
query parameter (absent parameter reads as `""`); on failure write a 400
INVALID_ARGUMENT client error without executing; otherwise execute pinned to
the bound credential with retry disabled, and drop the session after a
finalize command whose execution succeeded. -/
def handleResumableFollowUp (sessions : Sessions) (uploadIDParam cmd : String)
    (now : Nat) (execOk : Bool) : FollowUpResult × Sessions :=
  let uploadID := strTrim uploadIDParam
  match sessionAuthID sessions uploadID now with
  | (none, s1) => (.clientError 400 "missing or expired upload_id" "INVALID_ARGUMENT", s1)
  | (some authID, s1) =>
    let s2 := if strContainsSub (strToLower cmd) "finalize" && execOk
              then dropSession s1 uploadID else s1
    (.executed authID true execOk, s2)

/-- **C7.**  (i) A follow-up whose `upload_id` is blank, unknown, or past its
TTL produces the 400 INVALID_ARGUMENT "missing or expired upload_id" client
error — the handler returns before any credential selection, so it never
executes with any credential.  (ii) A follow-up with a live session executes
pinned to exactly the bound credential id with retry disabled.  (iii) After
binding a session and executing a successful finalize through it with the
bound credential, the session entry is removed, and any reuse of the same
token fails as missing/expired. -/
theorem claim_C7_resumable_sessions :
    (∀ (sessions : Sessions) (uploadIDParam cmd : String) (now : Nat) (execOk : Bool),
      strTrim uploadIDParam = "" →
      (handleResumableFollowUp sessions uploadIDParam cmd now execOk).1 =
        .clientError 400 "missing or expired upload_id" "INVALID_ARGUMENT") ∧
    (∀ (sessions : Sessions) (uploadIDParam cmd : String) (now : Nat) (execOk : Bool),
      fsLookup (strTrim uploadIDParam) sessions = none →
      (handleResumableFollowUp sessions uploadIDParam cmd now execOk).1 =
        .clientError 400 "missing or expired upload_id" "INVALID_ARGUMENT") ∧
    (∀ (sessions : Sessions) (uploadIDParam cmd : String) (now : Nat) (execOk : Bool)
       (sess : UploadSessionE),
      fsLookup (strTrim uploadIDParam) sessions = some sess →
      sess.expiresAt < now →
      (handleResumableFollowUp sessions uploadIDParam cmd now execOk).1 =
        .clientError 400 "missing or expired upload_id" "INVALID_ARGUMENT") ∧
    (∀ (sessions : Sessions) (uploadIDParam cmd : String) (now : Nat) (execOk : Bool)
       (sess : UploadSessionE),
      strTrim uploadIDParam ≠ "" →
      fsLookup (strTrim uploadIDParam) sessions = some sess →
      sess.authID ≠ "" →
      ¬ sess.expiresAt < now →
      (handleResumableFollowUp sessions uploadIDParam cmd now execOk).1 =
        .executed sess.authID true execOk) ∧
    (∀ (sessions : Sessions) (uploadID authID : String) (now1 now2 : Nat),
      strTrim uploadID = uploadID → uploadID ≠ "" →
      strTrim authID = authID → authID ≠ "" →
      ¬ now1 + 2 * nanosPerHour < now2 →
      (handleResumableFollowUp (bindSession sessions uploadID authID now1) uploadID
          "upload, finalize" now2 true).1 = .executed authID true true ∧
      (handleResumableFollowUp (bindSession sessions uploadID authID now1) uploadID
          "upload, finalize" now2 true).2 = fsErase uploadID sessions ∧
      (∀ cmd3 now3 ok3,
        (handleResumableFollowUp
            (handleResumableFollowUp (bindSession sessions uploadID authID now1) uploadID
              "upload, finalize" now2 true).2 uploadID cmd3 now3 ok3).1 =
          .clientError 400 "missing or expired upload_id" "INVALID_ARGUMENT")) := by
  have hEmpty : ∀ (sessions : Sessions) (uploadIDParam cmd : String) (now : Nat)
      (execOk : Bool), strTrim uploadIDParam = "" →
      (handleResumableFollowUp sessions uploadIDParam cmd now execOk).1 =
        .clientError 400 "missing or expired upload_id" "INVALID_ARGUMENT" := by
    intro sessions uploadIDParam cmd now execOk hblank
    simp [handleResumableFollowUp, sessionAuthID, strTrim_idem, hblank, strTrim_empty]
  have hMissing : ∀ (sessions : Sessions) (uploadIDParam cmd : String) (now : Nat)
      (execOk : Bool), fsLookup (strTrim uploadIDParam) sessions = none →
      (handleResumableFollowUp sessions uploadIDParam cmd now execOk).1 =
        .clientError 400 "missing or expired upload_id" "INVALID_ARGUMENT" := by
    intro sessions uploadIDParam cmd now execOk hnone
    by_cases hblank : strTrim uploadIDParam = ""
    · exact hEmpty sessions uploadIDParam cmd now execOk hblank
    · simp only [handleResumableFollowUp, sessionAuthID, strTrim_idem]
      rw [if_neg hblank, hnone]
  refine ⟨hEmpty, hMissing, ?_, ?_, ?_⟩
  · intro sessions uploadIDParam cmd now execOk sess hsome hexp
    by_cases hblank : strTrim uploadIDParam = ""
    · exact hEmpty sessions uploadIDParam cmd now execOk hblank
    · simp only [handleResumableFollowUp, sessionAuthID, strTrim_idem]
      rw [if_neg hblank, hsome]
      simp [hexp]
  · intro sessions uploadIDParam cmd now execOk sess hne hsome hauth hexp
    simp only [handleResumableFollowUp, sessionAuthID, strTrim_idem]
    rw [if_neg hne, hsome]
    simp [hauth, hexp]
  · intro sessions uploadID authID now1 now2 htrim hne htrimA hneA hnotPast
    have hbind : bindSession sessions uploadID authID now1 =
        fsInsert uploadID ⟨authID, now1 + 2 * nanosPerHour⟩ sessions := by
      unfold bindSession
      rw [if_neg]
      rw [htrim, htrimA]
      simp [hne, hneA]
    have hlook : fsLookup uploadID (bindSession sessions uploadID authID now1) =
        some ⟨authID, now1 + 2 * nanosPerHour⟩ := by
      rw [hbind, fsLookup_insert_self]
    have hfin : (strContainsSub (strToLower "upload, finalize") "finalize" && true) = true := by
      decide
    have hguard : ¬(({ authID := authID, expiresAt := now1 + 2 * nanosPerHour } :
        UploadSessionE).authID = "" ∨
        ({ authID := authID, expiresAt := now1 + 2 * nanosPerHour } :
        UploadSessionE).expiresAt < now2) := by
      simp [hneA, hnotPast]
    have hstep : handleResumableFollowUp (bindSession sessions uploadID authID now1) uploadID
        "upload, finalize" now2 true =
        (.executed authID true true, fsErase uploadID sessions) := by
      simp only [handleResumableFollowUp, sessionAuthID, strTrim_idem, htrim]
      rw [if_neg hne, hlook]
      simp only [if_neg hguard, hfin, eq_self_iff_true, if_true]
      simp only [dropSession, htrim]
      rw [if_neg hne, hbind, fsErase_fsInsert]
    refine ⟨by rw [hstep], by rw [hstep], ?_⟩
    intro cmd3 now3 ok3
    apply hMissing
    rw [hstep, htrim, fsLookup_erase_self]

/-- A session table binding token "tok" to credential "c1" until tick 100. -/
def sessTable : Sessions := [("tok", ⟨"c1", 100⟩)]

theorem claim_C7_resumable_sessions_witness :
    (handleResumableFollowUp sessTable "" "upload" 0 true).1 =
      .clientError 400 "missing or expired upload_id" "INVALID_ARGUMENT" ∧
    (handleResumableFollowUp sessTable "zzz" "upload" 0 true).1 =
      .clientError 400 "missing or expired upload_id" "INVALID_ARGUMENT" ∧
    (handleResumableFollowUp sessTable "tok" "upload" 200 true).1 =
      .clientError 400 "missing or expired upload_id" "INVALID_ARGUMENT" ∧
    (handleResumableFollowUp sessTable "tok" "upload, finalize" 50 false).1 =
      .executed "c1" true false ∧
    ((handleResumableFollowUp (bindSession [] "tok" "c1" 0) "tok"
        "upload, finalize" 1 true).1 = .executed "c1" true true ∧
     (handleResumableFollowUp
        (handleResumableFollowUp (bindSession [] "tok" "c1" 0) "tok"
          "upload, finalize" 1 true).2 "tok" "q" 2 true).1 =
      .clientError 400 "missing or expired upload_id" "INVALID_ARGUMENT") := by
  have h := claim_C7_resumable_sessions
  have h5 := h.2.2.2.2 [] "tok" "c1" 0 1 rfl (by decide) rfl (by decide) (by decide)
  exact ⟨h.1 sessTable "" "upload" 0 true rfl,
    h.2.1 sessTable "zzz" "upload" 0 true rfl,
    h.2.2.1 sessTable "tok" "upload" 200 true ⟨"c1", 100⟩ rfl (by decide),
    h.2.2.2.1 sessTable "tok" "upload, finalize" 50 false ⟨"c1", 100⟩ (by decide) rfl
      (by decide) (by decide),
    h5.1, h5.2.2 "q" 2 true⟩

/-! ### Local-mode resumable finalize (`handleResumableFinalize`; claim C10)

Go slicing `uploadID[:8]` panics ("slice bounds out of range") whenever the
string is shorter than 8 bytes; `goSliceTo` models that partiality, and the
`panicked` outcome records that the handler aborted abnormally instead of
writing a response.  (Go indexes bytes; for the ASCII ids at issue bytes
and characters coincide.) -/

def goSliceTo (s : String) (n : Nat) : Option String :=
  if n ≤ s.length then some (s.take n) else none

inductive FinalizeOutcome where
  | clientError (status : Nat) (message : String) (code : String)
  | panicked
  | completed (status : Nat) (uploadStatusHeader : String) (displayName : String)
deriving DecidableEq, Repr

/-- `handleResumableFinalize`: reject an empty `upload_id` with a 400; derive
the display name from the first 8 bytes of `upload_id` (the unguarded
slice); save the request body; answer 200/"final" on success and
500/"failed" on save failure. -/
def handleResumableFinalize (s : StoreState) (uploadID contentType apiKey : String)
    (body : List Nat) (now : Nat) (metaWriteOk : Bool) : FinalizeOutcome × StoreState :=
  if uploadID = "" then
    (.clientError 400 "missing upload_id parameter" "INVALID_ARGUMENT", s)
  else
    match goSliceTo uploadID 8 with
    | none => (.panicked, s)
    | some front =>
      let displayName := "upload-" ++ front
      match SaveFile s body uploadID contentType displayName apiKey now metaWriteOk with
      | (.ok _, s2) => (.completed 200 "final" displayName, s2)
      | (.error _, s2) => (.completed 500 "failed" displayName, s2)

/-- **C10 (code bug).**  The claim says the finalize handler is total for
every non-empty `upload_id`.  The code computes `uploadID[:8]` with no
length guard, so a request whose `upload_id` is `"abc"` — non-empty, 3
bytes — passes the emptiness check and then panics on an out-of-range
slice instead of completing with a response; inputs of length ≥ 8 do
complete. -/
theorem claim_C10_short_upload_id_panics :
    ("abc" : String) ≠ "" ∧
    (handleResumableFinalize sEmpty "abc" "text/plain" "" [1] 0 true).1 = .panicked ∧
    (∀ s uploadID contentType apiKey body now metaWriteOk,
      uploadID ≠ "" → 8 ≤ String.length uploadID →
      (handleResumableFinalize s uploadID contentType apiKey body now metaWriteOk).1 ≠
        .panicked) := by
  refine ⟨by decide, rfl, ?_⟩
  intro s uploadID contentType apiKey body now metaWriteOk hne hlen
  unfold handleResumableFinalize goSliceTo
  rw [if_neg hne, if_pos hlen]
  split
  · simp_all
  · dsimp only
    split <;> simp

/-! ### JSON values and the gjson/sjson path operations
(`gemini_local_file_rewrite.go`; claim C6)

The payload is modelled as a JSON tree rather than raw bytes.  `jGet` /
`jGetPath` mirror `gjson.Get` with dotted paths (first matching object
field); `jStringOf` mirrors `.String()` on the accessed result for the
scalar cases (for a missing value or a non-scalar it yields `""`, which
agrees with gjson on everything the rewriter tests, since gjson's raw-JSON
rendering of arrays/objects never carries the `files/` prefix).  `jSet` /
`jDelete` mirror `sjson.SetBytes` / `sjson.DeleteBytes` for the path shapes
the rewriter uses: object fields are replaced in place or appended at the
end, array indices are modified in place (the rewriter only addresses
indices obtained from the same payload, so they exist), and deleting a
missing path is a no-op. -/

inductive JValue where
  | null
  | bool (b : Bool)
  | num (n : Int)
  | str (s : String)
  | arr (elems : List JValue)
  | obj (fields : List (String × JValue))

inductive JSeg where
  | fld (k : String)
  | idx (n : Nat)

def jGet : JValue → String → Option JValue
  | .obj fields, k => (fields.find? (fun p => p.1 == k)).map (fun p => p.2)
  | _, _ => none

def jIndex : JValue → Nat → Option JValue
  | .arr elems, n => elems[n]?
  | _, _ => none

def jGetPath : JValue → List JSeg → Option JValue
  | v, [] => some v
  | v, .fld k :: rest =>
    match jGet v k with
    | some w => jGetPath w rest
    | none => none
  | v, .idx n :: rest =>
    match jIndex v n with
    | some w => jGetPath w rest
    | none => none

def jStringOf : Option JValue → String
  | some (.str s) => s
  | some (.bool b) => if b then "true" else "false"
  | some (.num n) => toString n
  | _ => ""

/-- Replace the first binding of `k` (keeping its position), or append the
binding at the end — sjson's object-update order. -/
def putField : List (String × JValue) → String → JValue → List (String × JValue)
  | [], k, child => [(k, child)]
  | (k', v') :: tail, k, child =>
    if k' == k then (k', child) :: tail else (k', v') :: putField tail k child

/-- The field value `jSet` descends into: the existing one, or `null` when
the field is created. -/
def jChild (v : JValue) (k : String) : JValue :=
  match jGet v k with
  | some w => w
  | none => .null

def jSet : JValue → List JSeg → JValue → JValue
  | _, [], x => x
  | .obj fields, .fld k :: rest, x =>
    .obj (putField fields k (jSet (jChild (.obj fields) k) rest x))
  | .arr elems, .idx n :: rest, x =>
    match elems[n]? with
    | some e => .arr (elems.set n (jSet e rest x))
    | none => .arr elems
  | _, .fld k :: rest, x => .obj [(k, jSet .null rest x)]
  | v, .idx _ :: _, _ => v

def jDelete : JValue → List JSeg → JValue
  | v, [] => v
  | .obj fields, [.fld k] => .obj (fields.filter (fun p => p.1 != k))
  | .arr elems, [.idx n] => .arr (elems.eraseIdx n)
  | .obj fields, .fld k :: rest =>
    match (fields.find? (fun p => p.1 == k)) with
    | some p => .obj (putField fields k (jDelete p.2 rest))
    | none => .obj fields
  | .arr elems, .idx n :: rest =>
    match elems[n]? with
    | some e => .arr (elems.set n (jDelete e rest))
    | none => .arr elems
  | v, _ => v

/-! ### Base64 (`base64.StdEncoding`) -/

def base64Table : List Char :=
  "ABCDEFGHIJKLMNOPQRSTUVWXYZabcdefghijklmnopqrstuvwxyz0123456789+/".data

def b64Char (n : Nat) : Char := base64Table.getD n 'A'

def b64Chunks : List Nat → List Char
  | b0 :: b1 :: b2 :: rest =>
    b64Char (b0 / 4) :: b64Char (b0 % 4 * 16 + b1 / 16) ::
      b64Char (b1 % 16 * 4 + b2 / 64) :: b64Char (b2 % 64) :: b64Chunks rest
  | [b0, b1] => [b64Char (b0 / 4), b64Char (b0 % 4 * 16 + b1 / 16), b64Char (b1 % 16 * 4), '=']
  | [b0] => [b64Char (b0 / 4), b64Char (b0 % 4 * 16), '=', '=']
  | [] => []

def base64Encode (bytes : List Nat) : String := String.mk (b64Chunks bytes)

def b64Val (c : Char) : Option Nat := base64Table.findIdx? (fun d => d == c)

/-- Standard base64 decoding of a padded character stream; `none` on any
malformed input. -/
def base64DecodeChars : List Char → Option (List Nat)
  | [] => some []
  | c0 :: c1 :: c2 :: c3 :: rest =>
    match b64Val c0, b64Val c1 with
    | some v0, some v1 =>
      if c2 = '=' then
        if c3 = '=' ∧ rest = [] then some [v0 * 4 + v1 / 16] else none
      else
        match b64Val c2 with
        | some v2 =>
          if c3 = '=' then
            if rest = [] then some [v0 * 4 + v1 / 16, v1 % 16 * 16 + v2 / 4] else none
          else
            match b64Val c3, base64DecodeChars rest with
            | some v3, some tail =>
              some ((v0 * 4 + v1 / 16) :: (v1 % 16 * 16 + v2 / 4) :: (v2 % 4 * 64 + v3) :: tail)
            | _, _ => none
        | none => none
    | _, _ => none
  | _ => none

theorem b64Val_b64Char (n : Nat) (hn : n < 64) : b64Val (b64Char n) = some n := by
  have hfin : ∀ m : Fin 64, b64Val (b64Char m.val) = some m.val := by decide
  exact hfin ⟨n, hn⟩

theorem b64Char_ne_pad (n : Nat) (hn : n < 64) : ¬ b64Char n = '=' := by
  have hfin : ∀ m : Fin 64, ¬ b64Char m.val = '=' := by decide
  exact hfin ⟨n, hn⟩

/-- Base64 decoding recovers exactly the encoded bytes. -/
theorem base64_roundtrip : ∀ bytes : List Nat, (∀ b ∈ bytes, b < 256) →
    base64DecodeChars (b64Chunks bytes) = some bytes
  | [], _ => rfl
  | [b0], hb => by
    have h0 : b0 < 256 := hb b0 (by simp)
    have hv0 := b64Val_b64Char (b0 / 4) (by omega)
    have hv1 := b64Val_b64Char (b0 % 4 * 16) (by omega)
    simp only [b64Chunks, base64DecodeChars, hv0, hv1]
    simp only [if_pos rfl, and_self, if_true, Option.some.injEq, List.cons.injEq, and_true]
    omega
  | [b0, b1], hb => by
    have h0 : b0 < 256 := hb b0 (by simp)
    have h1 : b1 < 256 := hb b1 (by simp)
    have hv0 := b64Val_b64Char (b0 / 4) (by omega)
    have hv1 := b64Val_b64Char (b0 % 4 * 16 + b1 / 16) (by omega)
    have hv2 := b64Val_b64Char (b1 % 16 * 4) (by omega)
    have hne := b64Char_ne_pad (b1 % 16 * 4) (by omega)
    simp only [b64Chunks, base64DecodeChars, hv0, hv1, hv2]
    rw [if_neg hne]
    simp only [if_true]
    simp only [Option.some.injEq, List.cons.injEq, and_true]
    constructor
    · omega
    · omega
  | b0 :: b1 :: b2 :: rest, hb => by
    have h0 : b0 < 256 := hb b0 (by simp)
    have h1 : b1 < 256 := hb b1 (by simp)
    have h2 : b2 < 256 := hb b2 (by simp)
    have ih := base64_roundtrip rest (fun x hx => hb x (by simp [hx]))
    have hv0 := b64Val_b64Char (b0 / 4) (by omega)
    have hv1 := b64Val_b64Char (b0 % 4 * 16 + b1 / 16) (by omega)
    have hv2 := b64Val_b64Char (b1 % 16 * 4 + b2 / 64) (by omega)
    have hv3 := b64Val_b64Char (b2 % 64) (by omega)
    have hne2 := b64Char_ne_pad (b1 % 16 * 4 + b2 / 64) (by omega)
    have hne3 := b64Char_ne_pad (b2 % 64) (by omega)
    show base64DecodeChars (_ :: _ :: _ :: _ :: b64Chunks rest) = _
    simp only [base64DecodeChars, hv0, hv1, hv2, hv3]
    rw [if_neg hne2, if_neg hne3, ih]
    simp only [Option.some.injEq, List.cons.injEq]
    refine ⟨by omega, by omega, by omega, trivial⟩
termination_by bytes => bytes.length

/-! ### The payload rewriter (`gemini_local_file_rewrite.go`) -/

def maxInlineFileBytes : Int := 20 * 1024 * 1024

structure FilePartRef where
  contentIndex : Nat
  partIndex : Nat
  fileURI : String
  mimeType : String
deriving DecidableEq, Repr

/-- `strings.HasPrefix`, over the character list (kernel-reducible). -/
def strStartsWith (s pre : String) : Bool := pre.data.isPrefixOf s.data

/-- `parseLocalFilePart`: read the file reference under `file_data.file_uri`
(with `file_data.mime_type`), falling back to the `fileData.fileUri`
spelling when the first is empty; a reference qualifies only when it starts
with the local handle marker `files/`. -/
def parseLocalFilePart (contentIndex partIndex : Nat) (part : JValue) : Option FilePartRef :=
  let fu1 := jStringOf (jGetPath part [.fld "file_data", .fld "file_uri"])
  let mt1 := jStringOf (jGetPath part [.fld "file_data", .fld "mime_type"])
  let pair :=
    if fu1 = "" then
      (jStringOf (jGetPath part [.fld "fileData", .fld "fileUri"]),
       jStringOf (jGetPath part [.fld "fileData", .fld "mimeType"]))
    else (fu1, mt1)
  if strStartsWith pair.1 "files/" then
    some ⟨contentIndex, partIndex, pair.1, pair.2⟩
  else none

def appendRefsFromContent (contentIndex : Nat) (content : JValue) : List FilePartRef :=
  match jGet content "parts" with
  | some (.arr parts) =>
    (parts.enum).filterMap (fun q => parseLocalFilePart contentIndex q.1 q.2)
  | _ => []

def findRefsInContents (contents : List JValue) : List FilePartRef :=
  (contents.enum).flatMap (fun q => appendRefsFromContent q.1 q.2)

def findLocalFilePartRefs (payload : JValue) : List FilePartRef :=
  match jGet payload "contents" with
  | some (.arr contents) => findRefsInContents contents
  | _ => []

/-- `strings.TrimPrefix`. -/
def trimPrefixStr (s pre : String) : String :=
  if strStartsWith s pre then String.mk (s.data.drop pre.data.length) else s

/-- `resolveMimeType`: the reference's declared mime type, or the stored
record's as fallback.  (The metadata is always present on the success path
modelled here.) -/
def resolveMimeType (ref : FilePartRef) (md : FileMetadata) : String :=
  if ref.mimeType ≠ "" then ref.mimeType else md.mimeType

def normalizeReadError : StoreError → StoreError
  | .fileNotFound => .fileNotFound
  | .fileTooLarge => .fileTooLarge
  | .quotaExceeded => .ioError "read local file"
  | .ioError m => .ioError ("read local file: " ++ m)

/-- `loadInlineFile`: strip the `files/` handle marker, read the bytes
owner-scoped and bounded by the inlining ceiling, and resolve the mime
type. -/
def loadInlineFile (s : StoreState) (apiKey : String) (now : Nat) (ref : FilePartRef) :
    Except StoreError (List Nat × String) :=
  let fileID := trimPrefixStr ref.fileURI "files/"
  match ReadFileBytesForAPIKey s fileID apiKey maxInlineFileBytes now with
  | .error e => .error (normalizeReadError e)
  | .ok (data, md) => .ok (data, resolveMimeType ref md)

def partSegs (ref : FilePartRef) : List JSeg :=
  [.fld "contents", .idx ref.contentIndex, .fld "parts", .idx ref.partIndex]

/-- `applyInlineData`: set `inline_data.mime_type` and `inline_data.data`
(base64 of the bytes) at the part's coordinates, then delete the reference
field under both spellings. -/
def applyInlineData (payload : JValue) (ref : FilePartRef) (mimeType : String)
    (data : List Nat) : JValue :=
  let p1 := jSet payload (partSegs ref ++ [.fld "inline_data", .fld "mime_type"])
    (.str mimeType)
  let p2 := jSet p1 (partSegs ref ++ [.fld "inline_data", .fld "data"])
    (.str (base64Encode data))
  let p3 := jDelete p2 (partSegs ref ++ [.fld "file_data"])
  jDelete p3 (partSegs ref ++ [.fld "fileData"])

def inlineLocalFilePart (s : StoreState) (apiKey : String) (now : Nat)
    (payload : JValue) (ref : FilePartRef) : Except StoreError JValue :=
  match loadInlineFile s apiKey now ref with
  | .error e => .error e
  | .ok (data, mimeType) => .ok (applyInlineData payload ref mimeType data)

def applyLocalFilePartRefs (s : StoreState) (apiKey : String) (now : Nat) :
    JValue → List FilePartRef → Except StoreError JValue
  | payload, [] => .ok payload
  | payload, ref :: rest =>
    match inlineLocalFilePart s apiKey now payload ref with
    | .error e => .error e
    | .ok updated => applyLocalFilePartRefs s apiKey now updated rest

/-- `rewriteLocalFileParts` with a configured local store (the `nil`-store
early return is outside this model). -/
def rewriteLocalFileParts (s : StoreState) (apiKey : String) (now : Nat)
    (payload : JValue) : Except StoreError JValue :=
  applyLocalFilePartRefs s apiKey now payload (findLocalFilePartRefs payload)

/-- The store read a reference resolves to. -/
def refLoad (s : StoreState) (apiKey : String) (now : Nat) (ref : FilePartRef) :
    Except StoreError (List Nat × FileMetadata) :=
  ReadFileBytesForAPIKey s (trimPrefixStr ref.fileURI "files/") apiKey
    maxInlineFileBytes now

/-- The part at coordinates (content index, part index). -/
def getPart (payload : JValue) (ci pi : Nat) : Option JValue :=
  jGetPath payload [.fld "contents", .idx ci, .fld "parts", .idx pi]

/-! ### How `jSet`/`jDelete` act on one object field or array slot -/

theorem jGet_putField_self (fields : List (String × JValue)) (k : String) (child : JValue) :
    jGet (.obj (putField fields k child)) k = some child := by
  induction fields with
  | nil => simp [putField, jGet, List.find?]
  | cons p tail ih =>
    by_cases hp : p.1 = k
    · simp [putField, hp, jGet, List.find?]
    · have hb : (p.1 == k) = false := by simp [hp]
      simp only [putField, hb, Bool.false_eq_true, if_false, jGet, List.find?] at ih ⊢
      exact ih

theorem jGet_putField_ne (fields : List (String × JValue)) (k k' : String) (child : JValue)
    (hne : k' ≠ k) : jGet (.obj (putField fields k child)) k' = jGet (.obj fields) k' := by
  induction fields with
  | nil =>
    simp only [putField, jGet, List.find?]
    have hk : ¬ k = k' := fun hh => hne hh.symm
    have : (k == k') = false := by simp [hk]
    simp [this]
  | cons p tail ih =>
    by_cases hp : p.1 = k
    · have hk : ¬ k = k' := fun hh => hne hh.symm
      have hb : (p.1 == k) = true := by simp [hp]
      have hb' : (p.1 == k') = false := by rw [hp]; simp [hk]
      simp [putField, hb, jGet, List.find?, hb']
    · have hb : (p.1 == k) = false := by simp [hp]
      by_cases hq : p.1 = k'
      · have hb' : (p.1 == k') = true := by simp [hq]
        simp [putField, hb, jGet, List.find?, hb']
      · have hb' : (p.1 == k') = false := by simp [hq]
        simp only [putField, hb, Bool.false_eq_true, if_false, jGet, List.find?, hb'] at ih ⊢
        exact ih

theorem jGet_jSet_self (v : JValue) (k : String) (rest : List JSeg) (x : JValue) :
    jGet (jSet v (.fld k :: rest) x) k = some (jSet (jChild v k) rest x) := by
  cases v with
  | obj fields => exact jGet_putField_self fields k _
  | null => simp [jSet, jGet, jChild, List.find?]
  | bool b => simp [jSet, jGet, jChild, List.find?]
  | num n => simp [jSet, jGet, jChild, List.find?]
  | str s => simp [jSet, jGet, jChild, List.find?]
  | arr elems => simp [jSet, jGet, jChild, List.find?]

theorem jGet_jSet_ne (v : JValue) (k k' : String) (rest : List JSeg) (x : JValue)
    (hne : k' ≠ k) : jGet (jSet v (.fld k :: rest) x) k' = jGet v k' := by
  have hk : ¬ k = k' := fun hh => hne hh.symm
  have hb : (k == k') = false := by simp [hk]
  cases v with
  | obj fields => exact jGet_putField_ne fields k k' _ hne
  | null => simp [jSet, jGet, List.find?, hb]
  | bool b => simp [jSet, jGet, List.find?, hb]
  | num n => simp [jSet, jGet, List.find?, hb]
  | str s => simp [jSet, jGet, List.find?, hb]
  | arr elems => simp [jSet, jGet, List.find?, hb]

theorem jIndex_jSet_ne (v : JValue) (n : Nat) (rest : List JSeg) (x : JValue) (m : Nat)
    (hne : m ≠ n) : jIndex (jSet v (.idx n :: rest) x) m = jIndex v m := by
  cases v with
  | arr elems =>
    rcases he : elems[n]? with _ | e
    · simp [jSet, he]
    · simp [jSet, he, jIndex, List.getElem?_set_ne (Ne.symm hne)]
  | null => rfl
  | bool b => rfl
  | num k => rfl
  | str s => rfl
  | obj fields => rfl

theorem jIndex_jSet_self (v : JValue) (n : Nat) (rest : List JSeg) (x : JValue)
    (e : JValue) (he : jIndex v n = some e) :
    jIndex (jSet v (.idx n :: rest) x) n = some (jSet e rest x) := by
  cases v with
  | arr elems =>
    have he' : elems[n]? = some e := he
    have hlt : n < elems.length := by
      by_contra hge
      rw [List.getElem?_eq_none (by omega)] at he'
      cases he'
    simp [jSet, he', jIndex, List.getElem?_set_self, hlt]
  | null => cases he
  | bool b => cases he
  | num k => cases he
  | str s => cases he
  | obj fields => cases he

theorem jIndex_jSet_none (v : JValue) (n : Nat) (rest : List JSeg) (x : JValue)
    (he : jIndex v n = none) : jIndex (jSet v (.idx n :: rest) x) n = none := by
  cases v with
  | arr elems =>
    have he' : elems[n]? = none := he
    simp [jSet, he', jIndex]
  | null => rfl
  | bool b => rfl
  | num k => rfl
  | str s => rfl
  | obj fields => rfl

theorem jGet_jDelete_fld_self (v : JValue) (k : String) :
    jGet (jDelete v [.fld k]) k = none := by
  cases v with
  | obj fields =>
    show jGet (.obj (fields.filter (fun p => p.1 != k))) k = none
    induction fields with
    | nil => rfl
    | cons p tail ih =>
      by_cases hp : p.1 = k
      · have hb : (p.1 != k) = false := by simp [hp]
        simpa [List.filter, hb] using ih
      · have hb : (p.1 != k) = true := by simp [hp]
        have hb' : (p.1 == k) = false := by simp [hp]
        simp only [List.filter, hb] at ih ⊢
        simp only [jGet, List.find?, hb'] at ih ⊢
        exact ih
  | null => rfl
  | bool b => rfl
  | num n => rfl
  | str s => rfl
  | arr elems => rfl

theorem jGet_jDelete_fld_ne (v : JValue) (k k' : String) (hne : k' ≠ k) :
    jGet (jDelete v [.fld k]) k' = jGet v k' := by
  cases v with
  | obj fields =>
    show jGet (.obj (fields.filter (fun p => p.1 != k))) k' = _
    induction fields with
    | nil => rfl
    | cons p tail ih =>
      by_cases hp : p.1 = k
      · have hb : (p.1 != k) = false := by simp [hp]
        have hk : ¬ k = k' := fun hh => hne hh.symm
        have hb' : (p.1 == k') = false := by rw [hp]; simp [hk]
        simp only [List.filter, hb]
        simp only [jGet, List.find?, hb'] at ih ⊢
        exact ih
      · have hb : (p.1 != k) = true := by simp [hp]
        by_cases hq : p.1 = k'
        · have hb' : (p.1 == k') = true := by simp [hq]
          simp [List.filter, hb, jGet, List.find?, hb']
        · have hb' : (p.1 == k') = false := by simp [hq]
          simp only [List.filter, hb]
          simp only [jGet, List.find?, hb'] at ih ⊢
          exact ih
  | null => rfl
  | bool b => rfl
  | num n => rfl
  | str s => rfl
  | arr elems => rfl

theorem jGet_jDelete_descend_self (v : JValue) (k : String) (r : JSeg) (rs : List JSeg) :
    jGet (jDelete v (.fld k :: r :: rs)) k =
      (jGet v k).map (fun w => jDelete w (r :: rs)) := by
  cases v with
  | obj fields =>
    rcases hf : fields.find? (fun p => p.1 == k) with _ | p
    · have hg : jGet (.obj fields) k = none := by simp [jGet, hf]
      simp [jDelete, hf, hg]
    · have hg : jGet (.obj fields) k = some p.2 := by simp [jGet, hf]
      simp [jDelete, hf, hg, jGet_putField_self]
  | null => rfl
  | bool b => rfl
  | num n => rfl
  | str s => rfl
  | arr elems => rfl

theorem jGet_jDelete_descend_ne (v : JValue) (k k' : String) (r : JSeg) (rs : List JSeg)
    (hne : k' ≠ k) : jGet (jDelete v (.fld k :: r :: rs)) k' = jGet v k' := by
  cases v with
  | obj fields =>
    rcases hf : fields.find? (fun p => p.1 == k) with _ | p
    · simp [jDelete, hf]
    · simp [jDelete, hf, jGet_putField_ne fields k k' _ hne]
  | null => rfl
  | bool b => rfl
  | num n => rfl
  | str s => rfl
  | arr elems => rfl

theorem jIndex_jDelete_descend_self (v : JValue) (n : Nat) (r : JSeg) (rs : List JSeg)
    (e : JValue) (he : jIndex v n = some e) :
    jIndex (jDelete v (.idx n :: r :: rs)) n = some (jDelete e (r :: rs)) := by
  cases v with
  | arr elems =>
    have he' : elems[n]? = some e := he
    have hlt : n < elems.length := by
      by_contra hge
      rw [List.getElem?_eq_none (by omega)] at he'
      cases he'
    simp [jDelete, he', jIndex, List.getElem?_set_self, hlt]
  | null => cases he
  | bool b => cases he
  | num k => cases he
  | str s => cases he
  | obj fields => cases he

theorem jIndex_jDelete_descend_ne (v : JValue) (n m : Nat) (r : JSeg) (rs : List JSeg)
    (hne : m ≠ n) : jIndex (jDelete v (.idx n :: r :: rs)) m = jIndex v m := by
  cases v with
  | arr elems =>
    rcases he : elems[n]? with _ | e
    · simp [jDelete, he]
    · simp [jDelete, he, jIndex, List.getElem?_set_ne (Ne.symm hne)]
  | null => rfl
  | bool b => rfl
  | num k => rfl
  | str s => rfl
  | obj fields => rfl

theorem jIndex_jDelete_descend_none (v : JValue) (n : Nat) (r : JSeg) (rs : List JSeg)
    (he : jIndex v n = none) : jIndex (jDelete v (.idx n :: r :: rs)) n = none := by
  cases v with
  | arr elems =>
    have he' : elems[n]? = none := he
    simp [jDelete, he', jIndex]
  | null => rfl
  | bool b => rfl
  | num k => rfl
  | str s => rfl
  | obj fields => rfl

/-! ### How `applyInlineData` acts on part coordinates -/


theorem getPart_eq (v : JValue) (cj pj : Nat) :
    getPart v cj pj =
      (jGet v "contents").bind fun c0 =>
        (jIndex c0 cj).bind fun c =>
          (jGet c "parts").bind fun ps => jIndex ps pj := by
  rcases h1 : jGet v "contents" with _ | c0
  · simp [getPart, jGetPath, h1]
  · rcases h2 : jIndex c0 cj with _ | c
    · simp [getPart, jGetPath, h1, h2]
    · rcases h3 : jGet c "parts" with _ | ps
      · simp [getPart, jGetPath, h1, h2, h3]
      · rcases h4 : jIndex ps pj with _ | p
        · simp [getPart, jGetPath, h1, h2, h3, h4]
        · simp [getPart, jGetPath, h1, h2, h3, h4]

theorem jSet_null_idx (n : Nat) (rest : List JSeg) (x : JValue) :
    jSet .null (.idx n :: rest) x = .null := rfl

theorem getPart_jSet_ne (v : JValue) (ci pi : Nat) (sub : List JSeg) (x : JValue)
    (cj pj : Nat) (hne : ¬ (cj = ci ∧ pj = pi)) :
    getPart (jSet v (.fld "contents" :: .idx ci :: .fld "parts" :: .idx pi :: sub) x) cj pj
      = getPart v cj pj := by
  rw [getPart_eq, getPart_eq]
  rw [jGet_jSet_self v "contents" _ x]
  rcases hC : jGet v "contents" with _ | c0
  · have hch : jChild v "contents" = .null := by simp [jChild, hC]
    rw [hch, jSet_null_idx]
    simp [jIndex]
  · have hch : jChild v "contents" = c0 := by simp [jChild, hC]
    rw [hch]
    simp only [Option.some_bind]
    by_cases hcj : cj = ci
    · subst hcj
      have hpj : pj ≠ pi := fun hh => hne ⟨rfl, hh⟩
      rcases hI : jIndex c0 cj with _ | c
      · rw [jIndex_jSet_none c0 cj _ x hI]
      · rw [jIndex_jSet_self c0 cj _ x c hI]
        simp only [Option.some_bind]
        rw [jGet_jSet_self c "parts" _ x]
        rcases hP : jGet c "parts" with _ | ps
        · have hch2 : jChild c "parts" = .null := by simp [jChild, hP]
          rw [hch2, jSet_null_idx]
          simp [jIndex]
        · have hch2 : jChild c "parts" = ps := by simp [jChild, hP]
          rw [hch2]
          simp only [Option.some_bind]
          rw [jIndex_jSet_ne ps pi sub x pj hpj]
    · rw [jIndex_jSet_ne c0 ci _ x cj hcj]

theorem getPart_jSet_self (v : JValue) (ci pi : Nat) (sub : List JSeg) (x : JValue)
    (part : JValue)
    (hp : getPart v ci pi = some part) :
    getPart (jSet v (.fld "contents" :: .idx ci :: .fld "parts" :: .idx pi :: sub) x) ci pi
      = some (jSet part sub x) := by
  rw [getPart_eq] at hp
  rcases hC : jGet v "contents" with _ | c0
  · rw [hC] at hp; cases hp
  · rw [hC] at hp
    simp only [Option.some_bind] at hp
    rcases hI : jIndex c0 ci with _ | c
    · rw [hI] at hp; cases hp
    · rw [hI] at hp
      simp only [Option.some_bind] at hp
      rcases hP : jGet c "parts" with _ | ps
      · rw [hP] at hp; cases hp
      · rw [hP] at hp
        simp only [Option.some_bind] at hp
        rw [getPart_eq]
        rw [jGet_jSet_self v "contents" _ x]
        have hch : jChild v "contents" = c0 := by simp [jChild, hC]
        rw [hch]
        simp only [Option.some_bind]
        rw [jIndex_jSet_self c0 ci _ x c hI]
        simp only [Option.some_bind]
        rw [jGet_jSet_self c "parts" _ x]
        have hch2 : jChild c "parts" = ps := by simp [jChild, hP]
        rw [hch2]
        simp only [Option.some_bind]
        rw [jIndex_jSet_self ps pi sub x part hp]

theorem getPart_jDelete_ne (v : JValue) (ci pi : Nat) (k : String) (cj pj : Nat)
    (hne : ¬ (cj = ci ∧ pj = pi)) :
    getPart (jDelete v (.fld "contents" :: .idx ci :: .fld "parts" :: .idx pi :: [.fld k]))
        cj pj = getPart v cj pj := by
  rw [getPart_eq, getPart_eq]
  rw [jGet_jDelete_descend_self v "contents" _ _]
  rcases hC : jGet v "contents" with _ | c0
  · simp
  · simp only [Option.map_some', Option.some_bind]
    by_cases hcj : cj = ci
    · subst hcj
      have hpj : pj ≠ pi := fun hh => hne ⟨rfl, hh⟩
      rcases hI : jIndex c0 cj with _ | c
      · rw [jIndex_jDelete_descend_none c0 cj _ _ hI]
      · rw [jIndex_jDelete_descend_self c0 cj _ _ c hI]
        simp only [Option.some_bind]
        rw [jGet_jDelete_descend_self c "parts" _ _]
        rcases hP : jGet c "parts" with _ | ps
        · simp
        · simp only [Option.map_some', Option.some_bind]
          rw [jIndex_jDelete_descend_ne ps pi pj _ _ hpj]
    · rw [jIndex_jDelete_descend_ne c0 ci cj _ _ hcj]

theorem getPart_jDelete_self (v : JValue) (ci pi : Nat) (k : String) (part : JValue)
    (hp : getPart v ci pi = some part) :
    getPart (jDelete v (.fld "contents" :: .idx ci :: .fld "parts" :: .idx pi :: [.fld k]))
        ci pi = some (jDelete part [.fld k]) := by
  rw [getPart_eq] at hp
  rcases hC : jGet v "contents" with _ | c0
  · rw [hC] at hp; cases hp
  · rw [hC] at hp
    simp only [Option.some_bind] at hp
    rcases hI : jIndex c0 ci with _ | c
    · rw [hI] at hp; cases hp
    · rw [hI] at hp
      simp only [Option.some_bind] at hp
      rcases hP : jGet c "parts" with _ | ps
      · rw [hP] at hp; cases hp
      · rw [hP] at hp
        simp only [Option.some_bind] at hp
        rw [getPart_eq]
        rw [jGet_jDelete_descend_self v "contents" _ _, hC]
        simp only [Option.map_some', Option.some_bind]
        rw [jIndex_jDelete_descend_self c0 ci _ _ c hI]
        simp only [Option.some_bind]
        rw [jGet_jDelete_descend_self c "parts" _ _, hP]
        simp only [Option.map_some', Option.some_bind]
        rw [jIndex_jDelete_descend_self ps pi _ _ part hp]

/-! ### The shape of a part after `applyInlineData` -/

def inlinePart (part : JValue) (mime : String) (data : List Nat) : JValue :=
  jDelete (jDelete
    (jSet (jSet part [.fld "inline_data", .fld "mime_type"] (.str mime))
      [.fld "inline_data", .fld "data"] (.str (base64Encode data)))
    [.fld "file_data"]) [.fld "fileData"]

theorem jChild_of_jGet (v : JValue) (k : String) (w : JValue)
    (h : jGet v k = some w) : jChild v k = w := by
  simp [jChild, h]

theorem jSet_nil (v x : JValue) : jSet v [] x = x := by cases v <;> rfl

theorem partSegs_append (ref : FilePartRef) (sub : List JSeg) :
    partSegs ref ++ sub =
      .fld "contents" :: .idx ref.contentIndex :: .fld "parts" ::
        .idx ref.partIndex :: sub := rfl

theorem getPart_applyInlineData_ne (payload : JValue) (ref : FilePartRef)
    (mime : String) (data : List Nat) (cj pj : Nat)
    (hne : ¬ (cj = ref.contentIndex ∧ pj = ref.partIndex)) :
    getPart (applyInlineData payload ref mime data) cj pj = getPart payload cj pj := by
  show getPart (jDelete (jDelete (jSet (jSet payload _ _) _ _) _) _) cj pj = _
  rw [partSegs_append, partSegs_append, partSegs_append, partSegs_append]
  rw [getPart_jDelete_ne _ _ _ _ _ _ hne, getPart_jDelete_ne _ _ _ _ _ _ hne,
    getPart_jSet_ne _ _ _ _ _ _ _ hne, getPart_jSet_ne _ _ _ _ _ _ _ hne]

theorem getPart_applyInlineData_self (payload : JValue) (ref : FilePartRef)
    (mime : String) (data : List Nat) (part : JValue)
    (hp : getPart payload ref.contentIndex ref.partIndex = some part) :
    getPart (applyInlineData payload ref mime data) ref.contentIndex ref.partIndex
      = some (inlinePart part mime data) := by
  show getPart (jDelete (jDelete (jSet (jSet payload _ _) _ _) _) _) _ _ = _
  rw [partSegs_append, partSegs_append, partSegs_append, partSegs_append]
  have h1 := getPart_jSet_self payload ref.contentIndex ref.partIndex
    [.fld "inline_data", .fld "mime_type"] (.str mime) part hp
  have h2 := getPart_jSet_self _ ref.contentIndex ref.partIndex
    [.fld "inline_data", .fld "data"] (.str (base64Encode data)) _ h1
  have h3 := getPart_jDelete_self _ ref.contentIndex ref.partIndex "file_data" _ h2
  have h4 := getPart_jDelete_self _ ref.contentIndex ref.partIndex "fileData" _ h3
  exact h4

theorem inlinePart_props (part : JValue) (mime : String) (data : List Nat) :
    jGetPath (inlinePart part mime data) [.fld "inline_data", .fld "data"]
        = some (.str (base64Encode data)) ∧
    jGetPath (inlinePart part mime data) [.fld "inline_data", .fld "mime_type"]
        = some (.str mime) ∧
    jGet (inlinePart part mime data) "file_data" = none ∧
    jGet (inlinePart part mime data) "fileData" = none := by
  have hne1 : ("file_data" : String) ≠ "fileData" := by decide
  have hne2 : ("inline_data" : String) ≠ "fileData" := by decide
  have hne3 : ("inline_data" : String) ≠ "file_data" := by decide
  have hne4 : ("mime_type" : String) ≠ "data" := by decide
  have hq1 : jGet (jSet part [.fld "inline_data", .fld "mime_type"] (.str mime))
      "inline_data"
      = some (jSet (jChild part "inline_data") [.fld "mime_type"] (.str mime)) :=
    jGet_jSet_self part "inline_data" _ _
  have hq2 : jGet (jSet (jSet part [.fld "inline_data", .fld "mime_type"] (.str mime))
      [.fld "inline_data", .fld "data"] (.str (base64Encode data))) "inline_data"
      = some (jSet (jSet (jChild part "inline_data") [.fld "mime_type"] (.str mime))
          [.fld "data"] (.str (base64Encode data))) := by
    rw [jGet_jSet_self, jChild_of_jGet _ _ _ hq1]
  have hinl : jGet (inlinePart part mime data) "inline_data"
      = some (jSet (jSet (jChild part "inline_data") [.fld "mime_type"] (.str mime))
          [.fld "data"] (.str (base64Encode data))) := by
    show jGet (jDelete (jDelete _ _) _) "inline_data" = _
    rw [jGet_jDelete_fld_ne _ _ _ hne2, jGet_jDelete_fld_ne _ _ _ hne3, hq2]
  refine ⟨?_, ?_, ?_, ?_⟩
  · show (match jGet (inlinePart part mime data) "inline_data" with
      | some w => jGetPath w [.fld "data"]
      | none => none) = _
    rw [hinl]
    show jGetPath _ [.fld "data"] = _
    have hd : jGet (jSet (jSet (jChild part "inline_data")
        [.fld "mime_type"] (.str mime)) [.fld "data"] (.str (base64Encode data)))
        "data" = some (.str (base64Encode data)) := by
      rw [jGet_jSet_self _ "data" [] _, jSet_nil]
    show (match jGet _ "data" with
      | some w => jGetPath w [] | none => none) = _
    rw [hd]
    rfl
  · show (match jGet (inlinePart part mime data) "inline_data" with
      | some w => jGetPath w [.fld "mime_type"]
      | none => none) = _
    rw [hinl]
    have hm : jGet (jSet (jSet (jChild part "inline_data")
        [.fld "mime_type"] (.str mime)) [.fld "data"] (.str (base64Encode data)))
        "mime_type" = some (.str mime) := by
      rw [jGet_jSet_ne _ _ _ _ _ hne4]
      rw [jGet_jSet_self _ "mime_type" [] _, jSet_nil]
    show (match jGet _ "mime_type" with
      | some w => jGetPath w [] | none => none) = _
    rw [hm]
    rfl
  · show jGet (jDelete (jDelete _ [.fld "file_data"]) [.fld "fileData"]) "file_data" = none
    rw [jGet_jDelete_fld_ne _ _ _ hne1, jGet_jDelete_fld_self]
  · exact jGet_jDelete_fld_self _ "fileData"

/-! ### The rewrite fold: error propagation and per-part effect -/

def coordNe (r r' : FilePartRef) : Prop :=
  ¬ (r.contentIndex = r'.contentIndex ∧ r.partIndex = r'.partIndex)

theorem loadInlineFile_eq (s : StoreState) (key : String) (now : Nat)
    (ref : FilePartRef) :
    loadInlineFile s key now ref =
      match refLoad s key now ref with
      | .error e => .error (normalizeReadError e)
      | .ok (data, md) => .ok (data, resolveMimeType ref md) := rfl

theorem loadInlineFile_err (s : StoreState) (key : String) (now : Nat)
    (ref : FilePartRef) (e : StoreError) (h : refLoad s key now ref = .error e) :
    loadInlineFile s key now ref = .error (normalizeReadError e) := by
  rw [loadInlineFile_eq, h]

theorem loadInlineFile_ok (s : StoreState) (key : String) (now : Nat)
    (ref : FilePartRef) (data : List Nat) (md : FileMetadata)
    (h : refLoad s key now ref = .ok (data, md)) :
    loadInlineFile s key now ref = .ok (data, resolveMimeType ref md) := by
  rw [loadInlineFile_eq, h]

theorem applyRefs_cons_ok (s : StoreState) (key : String) (now : Nat)
    (payload : JValue) (ref : FilePartRef) (rest : List FilePartRef)
    (p : List Nat) (mime : String)
    (h : loadInlineFile s key now ref = .ok (p, mime)) :
    applyLocalFilePartRefs s key now payload (ref :: rest)
      = applyLocalFilePartRefs s key now (applyInlineData payload ref mime p) rest := by
  simp only [applyLocalFilePartRefs, inlineLocalFilePart, h]

theorem applyRefs_cons_err (s : StoreState) (key : String) (now : Nat)
    (payload : JValue) (ref : FilePartRef) (rest : List FilePartRef)
    (e : StoreError) (h : loadInlineFile s key now ref = .error e) :
    applyLocalFilePartRefs s key now payload (ref :: rest) = .error e := by
  simp only [applyLocalFilePartRefs, inlineLocalFilePart, h]

theorem applyRefs_err (s : StoreState) (key : String) (now : Nat) :
    ∀ (done : List FilePartRef) (payload : JValue) (ref : FilePartRef)
      (rest : List FilePartRef) (e : StoreError),
    (∀ r ∈ done, ∃ p md, refLoad s key now r = .ok (p, md)) →
    refLoad s key now ref = .error e →
    applyLocalFilePartRefs s key now payload (done ++ ref :: rest)
      = .error (normalizeReadError e)
  | [], payload, ref, rest, e, _, he => by
    rw [List.nil_append]
    exact applyRefs_cons_err s key now payload ref rest _
      (loadInlineFile_err s key now ref e he)
  | d :: done, payload, ref, rest, e, hload, he => by
    obtain ⟨p, md, hok⟩ := hload d (by simp)
    rw [List.cons_append,
      applyRefs_cons_ok s key now payload d _ p (resolveMimeType d md)
        (loadInlineFile_ok s key now d p md hok)]
    exact applyRefs_err s key now done _ ref rest e
      (fun r hr => hload r (by simp [hr])) he

theorem applyRefs_ok (s : StoreState) (key : String) (now : Nat) :
    ∀ (rs : List FilePartRef) (payload : JValue),
    (∀ r ∈ rs, ∃ p md, refLoad s key now r = .ok (p, md)) →
    rs.Pairwise coordNe →
    ∃ out, applyLocalFilePartRefs s key now payload rs = .ok out ∧
      (∀ cj pj, (∀ r ∈ rs, ¬ (cj = r.contentIndex ∧ pj = r.partIndex)) →
        getPart out cj pj = getPart payload cj pj) ∧
      (∀ r ∈ rs, ∀ p md part, refLoad s key now r = .ok (p, md) →
        getPart payload r.contentIndex r.partIndex = some part →
        getPart out r.contentIndex r.partIndex
          = some (inlinePart part (resolveMimeType r md) p))
  | [], payload, _, _ =>
    ⟨payload, rfl, fun _ _ _ => rfl, fun r hr => absurd hr (List.not_mem_nil r)⟩
  | ref :: rest, payload, hload, hpw => by
    obtain ⟨p, md, hok⟩ := hload ref (by simp)
    have hsep : ∀ r' ∈ rest, coordNe ref r' := (List.pairwise_cons.mp hpw).1
    have hpw' : rest.Pairwise coordNe := (List.pairwise_cons.mp hpw).2
    obtain ⟨out, happ, huntouched, hper⟩ :=
      applyRefs_ok s key now rest
        (applyInlineData payload ref (resolveMimeType ref md) p)
        (fun r hr => hload r (by simp [hr])) hpw'
    refine ⟨out, ?_, ?_, ?_⟩
    · rw [applyRefs_cons_ok s key now payload ref rest p (resolveMimeType ref md)
        (loadInlineFile_ok s key now ref p md hok)]
      exact happ
    · intro cj pj hn
      rw [huntouched cj pj (fun r hr => hn r (by simp [hr]))]
      exact getPart_applyInlineData_ne payload ref _ p cj pj (hn ref (by simp))
    · intro r hr p' md' part hok' hpart
      rcases List.mem_cons.mp hr with hr | hr
      · subst hr
        rw [hok] at hok'
        obtain ⟨hp', hmd'⟩ : p = p' ∧ md = md' := by
          constructor <;> [exact congrArg Prod.fst (Except.ok.inj hok');
            exact congrArg Prod.snd (Except.ok.inj hok')]
        subst hp'; subst hmd'
        rw [huntouched r.contentIndex r.partIndex (fun r' hr' => hsep r' hr')]
        exact getPart_applyInlineData_self payload r _ p part hpart
      · have hne : ¬ (r.contentIndex = ref.contentIndex ∧ r.partIndex = ref.partIndex) :=
          fun hh => hsep r hr ⟨hh.1.symm, hh.2.symm⟩
        exact hper r hr p' md' part hok'
          (by rw [getPart_applyInlineData_ne payload ref _ p _ _ hne]; exact hpart)

/-! ### Which references the scan finds, and that their coordinates are distinct -/

theorem parseLocalFilePart_some (ci pi : Nat) (part : JValue) (r : FilePartRef)
    (h : parseLocalFilePart ci pi part = some r) :
    r.contentIndex = ci ∧ r.partIndex = pi ∧ strStartsWith r.fileURI "files/" = true := by
  have hh : parseLocalFilePart ci pi part =
      (if strStartsWith (if jStringOf (jGetPath part [.fld "file_data", .fld "file_uri"]) = "" then
            (jStringOf (jGetPath part [.fld "fileData", .fld "fileUri"]),
             jStringOf (jGetPath part [.fld "fileData", .fld "mimeType"]))
          else
            (jStringOf (jGetPath part [.fld "file_data", .fld "file_uri"]),
             jStringOf (jGetPath part [.fld "file_data", .fld "mime_type"]))).1
            "files/" = true then
        some ⟨ci, pi,
          (if jStringOf (jGetPath part [.fld "file_data", .fld "file_uri"]) = "" then
            (jStringOf (jGetPath part [.fld "fileData", .fld "fileUri"]),
             jStringOf (jGetPath part [.fld "fileData", .fld "mimeType"]))
          else
            (jStringOf (jGetPath part [.fld "file_data", .fld "file_uri"]),
             jStringOf (jGetPath part [.fld "file_data", .fld "mime_type"]))).1,
          (if jStringOf (jGetPath part [.fld "file_data", .fld "file_uri"]) = "" then
            (jStringOf (jGetPath part [.fld "fileData", .fld "fileUri"]),
             jStringOf (jGetPath part [.fld "fileData", .fld "mimeType"]))
          else
            (jStringOf (jGetPath part [.fld "file_data", .fld "file_uri"]),
             jStringOf (jGetPath part [.fld "file_data", .fld "mime_type"]))).2⟩
      else none) := rfl
  rw [hh] at h
  rcases hx : (if jStringOf (jGetPath part [.fld "file_data", .fld "file_uri"]) = "" then
      (jStringOf (jGetPath part [.fld "fileData", .fld "fileUri"]),
       jStringOf (jGetPath part [.fld "fileData", .fld "mimeType"]))
    else
      (jStringOf (jGetPath part [.fld "file_data", .fld "file_uri"]),
       jStringOf (jGetPath part [.fld "file_data", .fld "mime_type"]))) with ⟨fu, mt⟩
  rw [hx] at h
  cases hsw : strStartsWith fu "files/" with
  | false => simp [hsw] at h
  | true =>
    simp only [hsw, if_true] at h
    cases h
    exact ⟨rfl, rfl, hsw⟩

theorem mem_appendRefs (ci : Nat) (c : JValue) (r : FilePartRef)
    (h : r ∈ appendRefsFromContent ci c) :
    r.contentIndex = ci ∧
    ∃ parts part, jGet c "parts" = some (.arr parts) ∧
      parts[r.partIndex]? = some part ∧
      parseLocalFilePart ci r.partIndex part = some r := by
  rcases hg : jGet c "parts" with _ | w
  · rw [appendRefsFromContent, hg] at h; cases h
  · cases w with
    | arr parts =>
      rw [appendRefsFromContent, hg] at h
      obtain ⟨q, hq, hparse⟩ := List.mem_filterMap.mp h
      obtain ⟨i, x⟩ := q
      obtain ⟨hci, hpi, _⟩ := parseLocalFilePart_some ci i x r hparse
      refine ⟨hci, parts, x, rfl, ?_, ?_⟩
      · rw [hpi]; exact List.mk_mem_enum_iff_getElem?.mp hq
      · rw [hpi]; exact hparse
    | null => rw [appendRefsFromContent, hg] at h; cases h
    | bool b => rw [appendRefsFromContent, hg] at h; cases h
    | num n => rw [appendRefsFromContent, hg] at h; cases h
    | str s => rw [appendRefsFromContent, hg] at h; cases h
    | obj fields => rw [appendRefsFromContent, hg] at h; cases h

theorem mem_findRefs (payload : JValue) (r : FilePartRef)
    (h : r ∈ findLocalFilePartRefs payload) :
    strStartsWith r.fileURI "files/" = true ∧
    ∃ part, getPart payload r.contentIndex r.partIndex = some part ∧
      parseLocalFilePart r.contentIndex r.partIndex part = some r := by
  rcases hg : jGet payload "contents" with _ | w
  · rw [findLocalFilePartRefs, hg] at h; cases h
  · cases w with
    | arr contents =>
      rw [findLocalFilePartRefs, hg] at h
      obtain ⟨q, hq, hmem⟩ := List.mem_flatMap.mp h
      obtain ⟨i, c⟩ := q
      obtain ⟨hci, parts, part, hparts, hpart, hparse⟩ := mem_appendRefs i c r hmem
      have hc : contents[i]? = some c := List.mk_mem_enum_iff_getElem?.mp hq
      obtain ⟨_, _, hsw⟩ := parseLocalFilePart_some i r.partIndex part r hparse
      refine ⟨hsw, part, ?_, by rw [hci]; exact hparse⟩
      rw [getPart_eq, hg]
      simp only [Option.some_bind]
      have hidx : jIndex (.arr contents) r.contentIndex = some c := by
        rw [hci]; exact hc
      rw [hidx]
      simp only [Option.some_bind]
      rw [hparts]
      simp only [Option.some_bind]
      exact hpart
    | null => rw [findLocalFilePartRefs, hg] at h; cases h
    | bool b => rw [findLocalFilePartRefs, hg] at h; cases h
    | num n => rw [findLocalFilePartRefs, hg] at h; cases h
    | str s => rw [findLocalFilePartRefs, hg] at h; cases h
    | obj fields => rw [findLocalFilePartRefs, hg] at h; cases h

theorem findRefs_complete (payload : JValue) (ci pi : Nat) (part : JValue)
    (r : FilePartRef) (hp : getPart payload ci pi = some part)
    (hparse : parseLocalFilePart ci pi part = some r) :
    r ∈ findLocalFilePartRefs payload := by
  rw [getPart_eq] at hp
  rcases hg : jGet payload "contents" with _ | c0
  · rw [hg] at hp; cases hp
  · rw [hg] at hp
    simp only [Option.some_bind] at hp
    rcases hI : jIndex c0 ci with _ | c
    · rw [hI] at hp; cases hp
    · rw [hI] at hp
      simp only [Option.some_bind] at hp
      rcases hP : jGet c "parts" with _ | w
      · rw [hP] at hp; cases hp
      · rw [hP] at hp
        simp only [Option.some_bind] at hp
        cases c0 with
        | arr contents =>
          cases w with
          | arr parts =>
            rw [findLocalFilePartRefs, hg]
            refine List.mem_flatMap.mpr ⟨(ci, c), ?_, ?_⟩
            · exact List.mk_mem_enum_iff_getElem?.mpr hI
            · rw [appendRefsFromContent, hP]
              exact List.mem_filterMap.mpr
                ⟨(pi, part), List.mk_mem_enum_iff_getElem?.mpr hp, hparse⟩
          | null => cases hp
          | bool b => cases hp
          | num n => cases hp
          | str s => cases hp
          | obj fields => cases hp
        | null => cases hI
        | bool b => cases hI
        | num n => cases hI
        | str s => cases hI
        | obj fields => cases hI

theorem pairwise_filterMap_of_pairwise {α β : Type} (f : α → Option β)
    (R : β → β → Prop) :
    ∀ (l : List α),
    l.Pairwise (fun a b => ∀ x y, f a = some x → f b = some y → R x y) →
    (l.filterMap f).Pairwise R
  | [], _ => by simp
  | a :: l, h => by
    rcases List.pairwise_cons.mp h with ⟨ha, hl⟩
    rcases hf : f a with _ | x
    · simpa [List.filterMap_cons, hf] using
        pairwise_filterMap_of_pairwise f R l hl
    · rw [List.filterMap_cons, hf]
      refine List.pairwise_cons.mpr ⟨?_, pairwise_filterMap_of_pairwise f R l hl⟩
      intro y hy
      obtain ⟨b, hb, hfb⟩ := List.mem_filterMap.mp hy
      exact ha b hb x y hf hfb

theorem pairwise_enum_fst_lt {α : Type} (l : List α) :
    l.enum.Pairwise (fun a b => a.1 < b.1) := by
  have h : (l.enum.map Prod.fst).Pairwise (fun a b => a < b) := by
    rw [List.enum_map_fst]
    exact List.pairwise_lt_range l.length
  exact (List.pairwise_map).mp h

theorem pairwise_appendRefs (ci : Nat) (c : JValue) :
    (appendRefsFromContent ci c).Pairwise
      (fun r r' => r.partIndex ≠ r'.partIndex) := by
  rcases hg : jGet c "parts" with _ | w
  · rw [appendRefsFromContent, hg]; simp
  · cases w with
    | arr parts =>
      rw [appendRefsFromContent, hg]
      refine pairwise_filterMap_of_pairwise _ _ _ ?_
      refine (pairwise_enum_fst_lt parts).imp ?_
      intro a b hlt x y hfa hfb
      obtain ⟨_, hxa, _⟩ := parseLocalFilePart_some ci a.1 a.2 x hfa
      obtain ⟨_, hyb, _⟩ := parseLocalFilePart_some ci b.1 b.2 y hfb
      rw [hxa, hyb]
      omega
    | null => rw [appendRefsFromContent, hg]; simp
    | bool b => rw [appendRefsFromContent, hg]; simp
    | num n => rw [appendRefsFromContent, hg]; simp
    | str s => rw [appendRefsFromContent, hg]; simp
    | obj fields => rw [appendRefsFromContent, hg]; simp

theorem contentIndex_of_mem_appendRefs (ci : Nat) (c : JValue) (r : FilePartRef)
    (h : r ∈ appendRefsFromContent ci c) : r.contentIndex = ci :=
  (mem_appendRefs ci c r h).1

theorem pairwise_findRefs (payload : JValue) :
    (findLocalFilePartRefs payload).Pairwise coordNe := by
  rcases hg : jGet payload "contents" with _ | w
  · rw [findLocalFilePartRefs, hg]; simp
  · cases w with
    | arr contents =>
      rw [findLocalFilePartRefs, hg]
      unfold findRefsInContents
      refine List.pairwise_flatMap.mpr ⟨?_, ?_⟩
      · intro q _
        refine (pairwise_appendRefs q.1 q.2).imp ?_
        intro r r' hpi hand
        exact hpi hand.2
      · refine (pairwise_enum_fst_lt contents).imp ?_
        intro a b hlt r hr r' hr' hand
        have h1 := contentIndex_of_mem_appendRefs a.1 a.2 r hr
        have h2 := contentIndex_of_mem_appendRefs b.1 b.2 r' hr'
        rw [h1, h2] at hand
        omega
    | null => rw [findLocalFilePartRefs, hg]; simp
    | bool b => rw [findLocalFilePartRefs, hg]; simp
    | num n => rw [findLocalFilePartRefs, hg]; simp
    | str s => rw [findLocalFilePartRefs, hg]; simp
    | obj fields => rw [findLocalFilePartRefs, hg]; simp

/-- **C6.** The payload rewriter: the scan finds exactly the parts whose
file-reference field (under either spelling, `file_data.file_uri` or
`fileData.fileUri`) starts with the local handle marker `files/`; if any
referenced handle fails to load owner-scoped and within the inlining
ceiling (missing, unowned, or too large), the whole rewrite fails with the
normalized error — NotFound and TooLarge pass through unchanged — and no
partially rewritten payload is returned; when every referenced handle
loads, the rewrite succeeds, parts carrying no local reference are left
untouched, and each referenced part gains `inline_data.data` holding the
stored bytes base64-encoded (decoding back to exactly those bytes) and
`inline_data.mime_type` holding the declared mime type with the stored
record's as fallback, while the reference field is removed under both
spellings. -/
theorem claim_C6_payload_rewrite (s : StoreState) (key : String) (now : Nat)
    (payload : JValue) :
    (∀ r ∈ findLocalFilePartRefs payload,
      strStartsWith r.fileURI "files/" = true ∧
      ∃ part, getPart payload r.contentIndex r.partIndex = some part ∧
        parseLocalFilePart r.contentIndex r.partIndex part = some r) ∧
    (∀ ci pi part r, getPart payload ci pi = some part →
      parseLocalFilePart ci pi part = some r →
      r ∈ findLocalFilePartRefs payload ∧ r.contentIndex = ci ∧ r.partIndex = pi) ∧
    (∀ done ref rest e, findLocalFilePartRefs payload = done ++ ref :: rest →
      (∀ r ∈ done, ∃ p md, refLoad s key now r = .ok (p, md)) →
      refLoad s key now ref = .error e →
      rewriteLocalFileParts s key now payload = .error (normalizeReadError e)) ∧
    (normalizeReadError .fileNotFound = .fileNotFound ∧
     normalizeReadError .fileTooLarge = .fileTooLarge) ∧
    ((∀ r ∈ findLocalFilePartRefs payload, ∃ p md, refLoad s key now r = .ok (p, md)) →
      ∃ out, rewriteLocalFileParts s key now payload = .ok out ∧
        (∀ cj pj part, getPart payload cj pj = some part →
          parseLocalFilePart cj pj part = none →
          getPart out cj pj = some part) ∧
        (∀ r ∈ findLocalFilePartRefs payload, ∀ p md part,
          refLoad s key now r = .ok (p, md) →
          getPart payload r.contentIndex r.partIndex = some part →
          ∃ newPart, getPart out r.contentIndex r.partIndex = some newPart ∧
            jGetPath newPart [.fld "inline_data", .fld "data"]
              = some (.str (base64Encode p)) ∧
            jGetPath newPart [.fld "inline_data", .fld "mime_type"]
              = some (.str (resolveMimeType r md)) ∧
            jGet newPart "file_data" = none ∧
            jGet newPart "fileData" = none)) ∧
    (∀ data : List Nat, (∀ b ∈ data, b < 256) →
      base64DecodeChars (base64Encode data).data = some data) := by
  refine ⟨fun r hr => mem_findRefs payload r hr, ?_, ?_, ⟨rfl, rfl⟩, ?_, ?_⟩
  · intro ci pi part r hp hparse
    obtain ⟨hci, hpi, _⟩ := parseLocalFilePart_some ci pi part r hparse
    exact ⟨findRefs_complete payload ci pi part r hp hparse, hci, hpi⟩
  · intro done ref rest e hsplit hdone herr
    show applyLocalFilePartRefs s key now payload (findLocalFilePartRefs payload)
      = .error (normalizeReadError e)
    rw [hsplit]
    exact applyRefs_err s key now done payload ref rest e hdone herr
  · intro hload
    obtain ⟨out, happ, huntouched, hper⟩ :=
      applyRefs_ok s key now (findLocalFilePartRefs payload) payload hload
        (pairwise_findRefs payload)
    refine ⟨out, happ, ?_, ?_⟩
    · intro cj pj part hp hnone
      rw [huntouched cj pj ?_]
      · exact hp
      · intro r hr hand
        obtain ⟨_, part', hp', hparse'⟩ := mem_findRefs payload r hr
        rw [← hand.1, ← hand.2] at hp' hparse'
        rw [hp] at hp'
        cases hp'
        rw [hnone] at hparse'
        cases hparse'
    · intro r hr p md part hok hpart
      exact ⟨inlinePart part (resolveMimeType r md) p, hper r hr p md part hok hpart,
        (inlinePart_props part (resolveMimeType r md) p).1,
        (inlinePart_props part (resolveMimeType r md) p).2.1,
        (inlinePart_props part (resolveMimeType r md) p).2.2.1,
        (inlinePart_props part (resolveMimeType r md) p).2.2.2⟩
  · intro data hdata
    exact base64_roundtrip data hdata

/-- A third well-formed id, for the rewriter example. -/
def cidC6 : String := "22222222222222222222222222222222"

/-- A record owned by `key-a` holding the five bytes of `hello`. -/
def mdC6 : FileMetadata :=
  { fileID := cidC6, name := "c.txt", displayName := "c.txt", mimeType := "text/plain",
    sizeBytes := 5, sha256Hash := "", uri := "files/" ++ cidC6, state := "ACTIVE",
    createdAt := 0, expiresAt := 1000, uploadSource := "local",
    apiKey := hashAPIKey "key-a" }

def sC6 : StoreState :=
  { files := [(cidC6, helloBytes)], metas := [(cidC6, mdC6)],
    currentTotalSize := 5, maxTotalSizeMB := 0, expirationHours := 48 }

/-- The part of `payloadC6` that references the stored file. -/
def partC6 : JValue :=
  .obj [("file_data", .obj [("file_uri", .str ("files/" ++ cidC6)),
    ("mime_type", .str "")])]

/-- One content with a plain text part and one local file reference. -/
def payloadC6 : JValue :=
  .obj [("contents", .arr [.obj [("parts",
    .arr [.obj [("text", .str "hi")], partC6])]])]

def refC6 : FilePartRef := ⟨0, 1, "files/" ++ cidC6, ""⟩

theorem claim_C6_payload_rewrite_witness :
    (refC6 ∈ findLocalFilePartRefs payloadC6 ∧
      refC6.contentIndex = 0 ∧ refC6.partIndex = 1) ∧
    ∃ out, rewriteLocalFileParts sC6 "key-a" 0 payloadC6 = .ok out ∧
      ∃ newPart, getPart out 0 1 = some newPart ∧
        jGetPath newPart [.fld "inline_data", .fld "data"]
          = some (.str (base64Encode helloBytes)) ∧
        jGetPath newPart [.fld "inline_data", .fld "mime_type"]
          = some (.str "text/plain") ∧
        jGet newPart "file_data" = none ∧
        jGet newPart "fileData" = none := by
  have H := claim_C6_payload_rewrite sC6 "key-a" 0 payloadC6
  have hrefs : findLocalFilePartRefs payloadC6 = [refC6] := by decide
  have hmem : refC6 ∈ findLocalFilePartRefs payloadC6 := by rw [hrefs]; simp
  have hload : ∀ r ∈ findLocalFilePartRefs payloadC6,
      ∃ p md, refLoad sC6 "key-a" 0 r = .ok (p, md) := by
    intro r hr
    rw [hrefs] at hr
    rw [List.mem_singleton.mp hr]
    exact ⟨helloBytes, mdC6, by rfl⟩
  refine ⟨⟨hmem, H.2.1 0 1 partC6 refC6 (by rfl) (by decide) |>.2⟩, ?_⟩
  obtain ⟨out, hok, _, hper⟩ := H.2.2.2.2.1 hload
  refine ⟨out, hok, ?_⟩
  obtain ⟨newPart, hnp, hdata, hmime, hfd, hfD⟩ :=
    hper refC6 hmem helloBytes mdC6 partC6 (by rfl) (by rfl)
  have hres : resolveMimeType refC6 mdC6 = "text/plain" := by decide
  rw [hres] at hmime
  exact ⟨newPart, hnp, hdata, hmime, hfd, hfD⟩
